import Mathlib

/-!
Verification development for the newSpice netlist editor
(`src/newSpice/editor/spice_editor.py`) and simulation scheduler
(`src/newSpice/sim/sim_runner.py`).

Lines of a netlist are modelled as `List Char` (each line keeps its
terminating newline, exactly as Python file iteration yields them).
The per-element-type field patterns of `REPLACE_REGXES` are modelled by a
small backtracking regular-expression engine with capture groups,
conditional groups and lazy/greedy bounded repetition — the constructs the
source patterns actually use.  All pattern matching is case-insensitive,
mirroring `re.IGNORECASE` which every compiled pattern in the source uses.
-/

set_option maxRecDepth 10000

deriving instance DecidableEq for Except

abbrev Chars := List Char

namespace NewSpice

/-- Character class for Python `\s` (ASCII whitespace as used in netlists). -/
def isSpaceCh (c : Char) : Bool :=
  c = ' ' ∨ c = '\t' ∨ c = '\n' ∨ c = '\r' ∨ c = '\x0b' ∨ c = '\x0c'

/-- Character class for Python `\S`. -/
def isNonSpaceCh (c : Char) : Bool := !isSpaceCh c

/-- Character class for Python `\w` (word characters; ASCII letters, digits,
underscore, plus the micro sign which Python's Unicode `\w` also accepts and
which appears in the engineering suffixes). -/
def isWordCh (c : Char) : Bool :=
  (('a' ≤ c ∧ c ≤ 'z') ∨ ('A' ≤ c ∧ c ≤ 'Z') ∨ ('0' ≤ c ∧ c ≤ '9')
    ∨ c = '_' ∨ c = 'µ')

/-- Character class for Python `\d`. -/
def isDigitCh (c : Char) : Bool := '0' ≤ c ∧ c ≤ '9'

/-- Character class for `[0-9\.E+-]` under `re.IGNORECASE` (so `e` matches too). -/
def isNumValCh (c : Char) : Bool :=
  isDigitCh c ∨ c = '.' ∨ c = 'E' ∨ c = 'e' ∨ c = '+' ∨ c = '-'

/-- Character class for `[kmuµnpf]` under `re.IGNORECASE`. -/
def isEngSuffixCh (c : Char) : Bool :=
  let l := c.toLower
  l = 'k' ∨ l = 'm' ∨ l = 'u' ∨ l = 'µ' ∨ l = 'n' ∨ l = 'p' ∨ l = 'f'

/-- Character class for `[\+\-]`. -/
def isSignCh (c : Char) : Bool := c = '+' ∨ c = '-'

/-- Character class for `[\d\w\{\}\(\)\-\+\*/]` (the parameter-value class of
the sub-circuit instance pattern). -/
def isParamValCh (c : Char) : Bool :=
  isWordCh c ∨ isDigitCh c ∨ c = '{' ∨ c = '}' ∨ c = '(' ∨ c = ')'
    ∨ c = '-' ∨ c = '+' ∨ c = '*' ∨ c = '/'

/-- Regular-expression abstract syntax, covering exactly the constructs used
by the source's compiled patterns: literals, character classes, `.`,
concatenation, alternation, counted repetition (with greedy and lazy
variants; `?`, `*`, `+`, `{m}`, `{m,n}` are all `rep`), numbered capturing
groups, the conditional `(?(n)yes|no)`, and the `^` / `$` anchors. -/
inductive RE where
  | eps : RE
  | lit : Char → RE
  | cls : (Char → Bool) → RE
  | dot : RE
  | seq : RE → RE → RE
  | alt : RE → RE → RE
  | rep : RE → Nat → Option Nat → Bool → RE
  | grp : Nat → RE → RE
  | cnd : Nat → RE → RE → RE
  | bol : RE
  | eol : RE

namespace RE

def reopt (a : RE) : RE := .rep a 0 (some 1) false
def restar (a : RE) : RE := .rep a 0 none false
def replus (a : RE) : RE := .rep a 1 none false
def reseq (l : List RE) : RE := l.foldr .seq .eps

/-- Literal word, character by character (case-insensitive at match time). -/
def str (s : Chars) : RE := reseq (s.map .lit)

def size : RE → Nat
  | .eps => 1
  | .lit _ => 1
  | .cls _ => 1
  | .dot => 1
  | .seq a b => 1 + size a + size b
  | .alt a b => 1 + size a + size b
  | .rep a _ hi _ => 2 + (hi.getD 1) + size a
  | .grp _ a => 1 + size a
  | .cnd _ y n => 1 + size y + size n
  | .bol => 1
  | .eol => 1

end RE

/-- Capture slots: absolute (start, end) spans into the subject, `none` while
a group has not participated in the match. -/
abbrev Caps := List (Option (Nat × Nat))

def capSet (caps : Caps) (i : Nat) (v : Nat × Nat) : Caps := caps.set i (some v)

def capGet (caps : Caps) (i : Nat) : Option (Nat × Nat) := (caps.get? i).getD none

/-- Backtracking matcher in continuation-passing style.  `fuel` bounds the
total number of calls (the source patterns' repetition bodies all consume at
least one character, and a no-progress guard stops empty repetitions, so a
generous fuel is always enough on the inputs we evaluate).  Literal characters
compare case-insensitively (`re.IGNORECASE`).  `.dot` refuses `'\n'` and `eol`
accepts the position at end of subject or just before a final newline, as in
Python.  Capture spans are threaded through the continuation so that
backtracking discards them, and a group retains its last successful capture,
as in Python. -/
def mrun : Nat → RE → Chars → Nat → Caps → (Nat → Caps → Option (Nat × Caps)) →
    Option (Nat × Caps)
  | 0, _, _, _, _, _ => none
  | fuel+1, re, s, pos, caps, k =>
    match re with
    | .eps => k pos caps
    | .lit c =>
      match s.get? pos with
      | some d => if d.toLower = c.toLower then k (pos+1) caps else none
      | none => none
    | .cls p =>
      match s.get? pos with
      | some d => if p d then k (pos+1) caps else none
      | none => none
    | .dot =>
      match s.get? pos with
      | some d => if d = '\n' then none else k (pos+1) caps
      | none => none
    | .seq a b => mrun fuel a s pos caps (fun p c => mrun fuel b s p c k)
    | .alt a b =>
      match mrun fuel a s pos caps k with
      | some r => some r
      | none => mrun fuel b s pos caps k
    | .grp i a => mrun fuel a s pos caps (fun p c => k p (capSet c i (pos, p)))
    | .cnd i y n =>
      match capGet caps i with
      | some _ => mrun fuel y s pos caps k
      | none => mrun fuel n s pos caps k
    | .bol => if pos = 0 then k pos caps else none
    | .eol =>
      if pos = s.length ∨ (pos + 1 = s.length ∧ s.get? pos = some '\n') then
        k pos caps
      else none
    | .rep a lo hi lz =>
      if 0 < lo then
        mrun fuel a s pos caps
          (fun p c => mrun fuel (.rep a (lo-1) (hi.map (· - 1)) lz) s p c k)
      else
        match hi with
        | some 0 => k pos caps
        | _ =>
          if lz then
            match k pos caps with
            | some r => some r
            | none =>
              mrun fuel a s pos caps (fun p c =>
                if p = pos then none
                else mrun fuel (.rep a 0 (hi.map (· - 1)) lz) s p c k)
          else
            match mrun fuel a s pos caps (fun p c =>
                if p = pos then none
                else mrun fuel (.rep a 0 (hi.map (· - 1)) lz) s p c k) with
            | some r => some r
            | none => k pos caps

/-- A compiled pattern: the AST, the number of capture groups, and the map
from group names to group numbers (Python numbers groups by their opening
parenthesis, named or not). -/
structure Pattern where
  re : RE
  ngroups : Nat
  names : List (String × Nat)

/-- Result of a successful match: the overall span and the capture slots. -/
structure MatchRes where
  mend : Nat
  caps : Caps
deriving DecidableEq, Repr

def fuelFor (p : Pattern) (s : Chars) : Nat :=
  (s.length + 2) * (p.re.size + 2) * 8

/-- Python `pattern.match(s)`: anchored at position 0 (the patterns
additionally all begin with `^`). -/
def patMatch (p : Pattern) (s : Chars) : Option MatchRes :=
  match mrun (fuelFor p s) p.re s 0 (List.replicate (p.ngroups + 1) none)
      (fun pos caps => some (pos, caps)) with
  | some (e, caps) => some ⟨e, caps⟩
  | none => none

/-- Python `pattern.search(s)`: first match trying successive start
positions.  (Every source pattern is `^`-anchored, so this coincides with
`patMatch`, but we keep the faithful scan.) -/
def patSearchAux (p : Pattern) (s : Chars) : Nat → Nat → Option MatchRes
  | _, 0 => none
  | start, n+1 =>
    match mrun (fuelFor p s) p.re s start (List.replicate (p.ngroups + 1) none)
        (fun pos caps => some (pos, caps)) with
    | some (e, caps) => some ⟨e, caps⟩
    | none => patSearchAux p s (start + 1) n

def patSearch (p : Pattern) (s : Chars) : Option MatchRes :=
  patSearchAux p s 0 (s.length + 1)

/-- Span of a named group in a match (`m.start(name)`, `m.end(name)`);
`none` when the group did not participate. -/
def groupSpan (p : Pattern) (m : MatchRes) (nm : String) : Option (Nat × Nat) :=
  match p.names.lookup nm with
  | some i => capGet m.caps i
  | none => none

/-- Content of a named group (`m.group(name)` for a participating group). -/
def groupStr (p : Pattern) (m : MatchRes) (nm : String) (s : Chars) : Option Chars :=
  match groupSpan p m nm with
  | some (a, b) => some ((s.take b).drop a)
  | none => none

/-! ### The `REPLACE_REGXES` pattern table

Each pattern below transcribes one entry of `REPLACE_REGXES`
(`spice_editor.py`, lines 40-83), with Python's group numbering (groups are
numbered by opening parenthesis; every parenthesis in the source patterns is
capturing). -/

/-- `(?P<designator>C§?\w+)` with the element-type letter `c` — group 1. -/
def desigGrp (c : Char) : RE :=
  .grp 1 (RE.reseq [.lit c, RE.reopt (.lit '§'), RE.replus (.cls isWordCh)])

/-- One node: `\s+\S+`. -/
def nodeOnce : RE :=
  RE.reseq [RE.replus (.cls isSpaceCh), RE.replus (.cls isNonSpaceCh)]

/-- `(?P<nodes>(\s+\S+){lo,hi})` — group 2 with inner group 3. -/
def nodesGrp (lo : Nat) (hi : Option Nat) (lz : Bool) : RE :=
  .grp 2 (.rep (.grp 3 nodeOnce) lo hi lz)

def wsPlus : RE := RE.replus (.cls isSpaceCh)

def dotStar : RE := RE.restar .dot

/-- `(Meg|[kmuµnpf])` as it appears inside the C/L/R value patterns; its
group number varies per pattern. -/
def megAlt (g : Nat) : RE :=
  .grp g (.alt (RE.str "Meg".toList) (.cls isEngSuffixCh))

/-- Shape `^desig nodes{n} \s+ (?P<value>.*)$` used by B, E, F, G, H, I, S,
T, U, V and W. -/
def patTailAll (c : Char) (lo : Nat) (hi : Nat) : Pattern :=
  { re := RE.reseq [.bol, desigGrp c, nodesGrp lo (some hi) false, wsPlus,
      .grp 4 dotStar, .eol],
    ngroups := 4,
    names := [("designator", 1), ("nodes", 2), ("value", 4)] }

/-- Shape `^desig nodes{n} \s+ (?P<value>\w+).*$` used by D, J, M, O, Q
and Z. -/
def patTailWord (c : Char) (lo : Nat) (hi : Nat) : Pattern :=
  { re := RE.reseq [.bol, desigGrp c, nodesGrp lo (some hi) false, wsPlus,
      .grp 4 (RE.replus (.cls isWordCh)), dotStar, .eol],
    ngroups := 4,
    names := [("designator", 1), ("nodes", 2), ("value", 4)] }

/-- `'C'` — capacitor:
`^(?P<designator>C§?\w+)(?P<nodes>(\s+\S+){2})(?P<model>\s+\w+)?\s+(?P<value>({)?(?(6).*}|([0-9\.E+-]+(Meg|[kmuµnpf])?F?))).*$`. -/
def patC : Pattern :=
  { re := RE.reseq [.bol, desigGrp 'C', nodesGrp 2 (some 2) false,
      RE.reopt (.grp 4 (RE.reseq [wsPlus, RE.replus (.cls isWordCh)])), wsPlus,
      .grp 5 (RE.reseq [RE.reopt (.grp 6 (.lit '{')),
        .cnd 6 (RE.reseq [dotStar, .lit '}'])
          (.grp 7 (RE.reseq [RE.replus (.cls isNumValCh), RE.reopt (megAlt 8),
            RE.reopt (.lit 'F')]))]),
      dotStar, .eol],
    ngroups := 8,
    names := [("designator", 1), ("nodes", 2), ("model", 4), ("value", 5)] }

/-- `'K'` — mutual inductance:
`^(?P<designator>K§?\w+)(?P<nodes>(\s+\S+){2,4})\s+(?P<value>[\+\-]?[0-9\.E+-]+[kmuµnpf]?).*$`. -/
def patK : Pattern :=
  { re := RE.reseq [.bol, desigGrp 'K', nodesGrp 2 (some 4) false, wsPlus,
      .grp 4 (RE.reseq [RE.reopt (.cls isSignCh), RE.replus (.cls isNumValCh),
        RE.reopt (.cls isEngSuffixCh)]),
      dotStar, .eol],
    ngroups := 4,
    names := [("designator", 1), ("nodes", 2), ("value", 4)] }

/-- `'L'` — inductance:
`^(?P<designator>L§?\w+)(?P<nodes>(\s+\S+){2})\s+(?P<value>({)?(?(5).*}|([0-9\.E+-]+(Meg|[kmuµnpf])?H?))).*$`. -/
def patL : Pattern :=
  { re := RE.reseq [.bol, desigGrp 'L', nodesGrp 2 (some 2) false, wsPlus,
      .grp 4 (RE.reseq [RE.reopt (.grp 5 (.lit '{')),
        .cnd 5 (RE.reseq [dotStar, .lit '}'])
          (.grp 6 (RE.reseq [RE.replus (.cls isNumValCh), RE.reopt (megAlt 7),
            RE.reopt (.lit 'H')]))]),
      dotStar, .eol],
    ngroups := 7,
    names := [("designator", 1), ("nodes", 2), ("value", 4)] }

/-- `'R'` — resistor:
`^(?P<designator>R§?\w+)(?P<nodes>(\s+\S+){2})(?P<model>\s+\w+)?\s+(?P<value>(R=)?({)?(?(7).*}|([0-9\.E+-]+(Meg|[kmuµnpf])?R?)\d*)).*$`. -/
def patR : Pattern :=
  { re := RE.reseq [.bol, desigGrp 'R', nodesGrp 2 (some 2) false,
      RE.reopt (.grp 4 (RE.reseq [wsPlus, RE.replus (.cls isWordCh)])), wsPlus,
      .grp 5 (RE.reseq [RE.reopt (.grp 6 (RE.str "R=".toList)),
        RE.reopt (.grp 7 (.lit '{')),
        .cnd 7 (RE.reseq [dotStar, .lit '}'])
          (RE.reseq [.grp 8 (RE.reseq [RE.replus (.cls isNumValCh),
              RE.reopt (megAlt 9), RE.reopt (.lit 'R')]),
            RE.restar (.cls isDigitCh)])]),
      dotStar, .eol],
    ngroups := 9,
    names := [("designator", 1), ("nodes", 2), ("model", 4), ("value", 5)] }

/-- `'X'` — sub-circuit instance:
`^(?P<designator>X§?\w+)(?P<nodes>(\s+\S+){1,99}?)\s+(?P<value>\w+)(\s+params:)?(?P<params>(\s+\w+\s*=\s*[\d\w\{\}\(\)\-\+\*/]+)*)\s*\\?$`. -/
def patX : Pattern :=
  { re := RE.reseq [.bol, desigGrp 'X', nodesGrp 1 (some 99) true, wsPlus,
      .grp 4 (RE.replus (.cls isWordCh)),
      RE.reopt (.grp 5 (RE.reseq [wsPlus, RE.str "params:".toList])),
      .grp 6 (RE.restar (.grp 7 (RE.reseq [wsPlus, RE.replus (.cls isWordCh),
        RE.restar (.cls isSpaceCh), .lit '=', RE.restar (.cls isSpaceCh),
        RE.replus (.cls isParamValCh)]))),
      RE.restar (.cls isSpaceCh), RE.reopt (.lit '\\'), .eol],
    ngroups := 7,
    names := [("designator", 1), ("nodes", 2), ("value", 4), ("params", 6)] }

/-- `'@'` — FRA wiggler:
`^(?P<designator>@§?\d+)(?P<nodes>(\s+\S+){2})\s?(?P<params>(.*)*)$`. -/
def patAt : Pattern :=
  { re := RE.reseq [.bol,
      .grp 1 (RE.reseq [.lit '@', RE.reopt (.lit '§'), RE.replus (.cls isDigitCh)]),
      nodesGrp 2 (some 2) false, RE.reopt (.cls isSpaceCh),
      .grp 4 (RE.restar (.grp 5 dotStar)), .eol],
    ngroups := 5,
    names := [("designator", 1), ("nodes", 2), ("params", 4)] }

/-- `'A'` — special functions; the source entry is the empty pattern `r""`
(matches the empty string at position 0, no groups). -/
def patA : Pattern := { re := .eps, ngroups := 0, names := [] }

/-- `component_replace_regexs` — lookup a compiled pattern by element-type
character.  The lookup is case-sensitive exactly like the Python dictionary
access `component_replace_regexs.get(prefix, None)` (the patterns themselves
match case-insensitively, but a lower-case designator prefix finds no
pattern). -/
def component_replace_regexs (c : Char) : Option Pattern :=
  match c with
  | 'A' => some patA
  | 'B' => some (patTailAll 'B' 2 2)
  | 'C' => some patC
  | 'D' => some (patTailWord 'D' 2 2)
  | 'E' => some (patTailAll 'E' 2 4)
  | 'F' => some (patTailAll 'F' 2 2)
  | 'G' => some (patTailAll 'G' 2 4)
  | 'H' => some (patTailAll 'H' 2 2)
  | 'I' => some (patTailAll 'I' 2 2)
  | 'J' => some (patTailWord 'J' 3 3)
  | 'K' => some patK
  | 'L' => some patL
  | 'M' => some (patTailWord 'M' 3 4)
  | 'O' => some (patTailWord 'O' 4 4)
  | 'Q' => some (patTailWord 'Q' 3 4)
  | 'R' => some patR
  | 'S' => some (patTailAll 'S' 4 4)
  | 'T' => some (patTailAll 'T' 4 4)
  | 'U' => some (patTailAll 'U' 3 3)
  | 'V' => some (patTailAll 'V' 2 2)
  | 'W' => some (patTailAll 'W' 2 2)
  | 'X' => some patX
  | 'Z' => some (patTailWord 'Z' 3 3)
  | '@' => some patAt
  | _ => none

/-- `subckt_regex = re.compile(r"^.SUBCKT\s+(?P<name>\w+)", re.IGNORECASE)`.
Note the unescaped `.`, which matches any character, exactly as in the
source. -/
def subckt_regex : Pattern :=
  { re := RE.reseq [.bol, .dot, RE.str "SUBCKT".toList, wsPlus,
      .grp 1 (RE.replus (.cls isWordCh))],
    ngroups := 1,
    names := [("name", 1)] }

/-- `lib_inc_regex = re.compile(r"^\.(LIB|INC)\s+(.*)$", re.IGNORECASE)`. -/
def lib_inc_regex : Pattern :=
  { re := RE.reseq [.bol, .lit '.',
      .grp 1 (.alt (RE.str "LIB".toList) (RE.str "INC".toList)), wsPlus,
      .grp 2 dotStar, .eol],
    ngroups := 2,
    names := [] }

/-! ### The netlist document model (`SpiceCircuit` / `SpiceEditor`)

A `SpiceCircuit.netlist` is an ordered list whose elements are either plain
text lines or nested `SpiceCircuit` objects; we model it as `List Entry`
with `Entry.sub` holding the nested node's own entry list. -/

/-- One element of `SpiceCircuit.netlist`: a raw instruction line (with its
line terminator) or a nested sub-circuit. -/
inductive Entry where
  | line : Chars → Entry
  | sub : List Entry → Entry
deriving Repr

mutual

def beqEntry : Entry → Entry → Bool
  | .line s, .line t => decide (s = t)
  | .sub a, .sub b => beqEntries a b
  | _, _ => false

def beqEntries : List Entry → List Entry → Bool
  | [], [] => true
  | x :: xs, y :: ys => beqEntry x y && beqEntries xs ys
  | _, _ => false

end

mutual

theorem beqEntry_iff : (a b : Entry) → (beqEntry a b = true ↔ a = b)
  | .line s, .line t => by simp [beqEntry]
  | .line _, .sub _ => by simp [beqEntry]
  | .sub _, .line _ => by simp [beqEntry]
  | .sub a, .sub b => by simp [beqEntry, beqEntries_iff a b]

theorem beqEntries_iff : (a b : List Entry) → (beqEntries a b = true ↔ a = b)
  | [], [] => by simp [beqEntries]
  | [], _ :: _ => by simp [beqEntries]
  | _ :: _, [] => by simp [beqEntries]
  | x :: xs, y :: ys => by
    simp [beqEntries, beqEntry_iff x y, beqEntries_iff xs ys]

end

instance : DecidableEq Entry := fun a b => decidable_of_iff _ (beqEntry_iff a b)

/-- Errors raised by the modelled operations, one constructor per Python
exception class reachable in the modelled code paths. -/
inductive Err where
  | componentNotFound      -- ComponentNotFoundError
  | parameterNotFound      -- ParameterNotFoundError
  | unrecognizedSyntax     -- UnrecognizedSyntaxError
  | missingExpectedClause  -- MissingExpectedClauseError
  | notImplemented         -- NotImplementedError
  | runtimeError           -- RuntimeError (e.g. name() on an empty node)
  | syntaxError            -- SyntaxError from get_line_command / parsing
  | typeError              -- TypeError (string API applied to a nested node)
  | indexError             -- IndexError (empty designator, missing group)
  | assertionError         -- the assert in _add_lines
  | valueError             -- ValueError (list.remove miss)
  | fuelExhausted          -- out of modelling fuel (never hit by the fuels used)
deriving DecidableEq, Repr

/-- Element-type letters of `REPLACE_REGXES` (the dictionary keys, used by
`get_line_command` for the membership test `ch in REPLACE_REGXES`). -/
def replaceRegexKeys : Chars :=
  ['A','B','C','D','E','F','G','H','I','J','K','L','M','O','Q','R','S','T',
   'U','V','W','X','Z','@']

/-- Scan helper for `get_line_command` on a raw string: skips blanks, then
classifies the first significant character.  Python's loop returns `None`
implicitly when the line holds only blanks; we model that as `.ok none`. -/
def get_line_command_str : Chars → Except Err (Option Chars)
  | [] => .ok none
  | ch :: rest =>
    if ch = ' ' ∨ ch = '\t' then get_line_command_str rest
    else
      let up := ch.toUpper
      if up ∈ replaceRegexKeys then .ok (some [up])
      else if up = '+' then .ok (some ['+'])
      else if up ∈ ['#', ';', '*', '\n', '\r'] then .ok (some ['*'])
      else if up = '.' then
        .ok (some ((ch :: rest.takeWhile
          (fun c => ¬(c = ' ' ∨ c = '\t' ∨ c = '\r' ∨ c = '\n'))).map Char.toUpper))
      else .error .syntaxError

/-- `get_line_command`: type of SPICE command in a netlist entry; a nested
`SpiceCircuit` reads as `.SUBCKT`. -/
def get_line_command : Entry → Except Err (Option Chars)
  | .sub _ => .ok (some ".SUBCKT".toList)
  | .line l => get_line_command_str l

/-- `_first_token_upped`: first run of non-blank characters (blank meaning
space or tab only, so a lone token keeps its newline), upper-cased. -/
def first_token_upped (l : Chars) : Chars :=
  ((l.dropWhile (fun c => c = ' ' ∨ c = '\t')).takeWhile
    (fun c => ¬(c = ' ' ∨ c = '\t'))).map Char.toUpper

/-- Scan of `_get_line_starting_with`: first line entry (nested nodes are
skipped) whose leading token equals `substr.upper()`, returned together with
its absolute index. -/
def get_line_starting_with_aux (substr : Chars) : Nat → List Entry →
    Except Err (Nat × Chars)
  | _, [] => .error .componentNotFound
  | k, e :: rest =>
    match e with
    | .sub _ => get_line_starting_with_aux substr (k+1) rest
    | .line l =>
      if first_token_upped l = substr.map Char.toUpper then .ok (k, l)
      else get_line_starting_with_aux substr (k+1) rest

/-- `_get_line_starting_with` (also yielding the matched line, which the
callers fetch right after via `self.netlist[line_no]`). -/
def get_line_starting_with (nl : List Entry) (substr : Chars) :
    Except Err (Nat × Chars) :=
  get_line_starting_with_aux substr 0 nl

/-- `_add_lines`: the recursive-descent parser.  Consumes lines, recursing
into a fresh node at `.SUBCKT`, appending `+` continuation lines to the
previous entry, and stopping with `finished := true` after a `.END`/`.ENDS`
line.  Returns the entries built so far, whether the block closed properly,
and the unconsumed lines of the shared iterator.  A `+` continuation with no
previous entry models the source's failing `assert`; a `+` right after a
nested block models the `TypeError` of `netlist[-1] += line`.  The fuel only
guards the recursion; `add_lines_fuel` below is always sufficient. -/
def add_lines_aux : Nat → List Entry → List Chars →
    Except Err (List Entry × Bool × List Chars)
  | 0, _, _ => .error .fuelExhausted
  | _+1, acc, [] => .ok (acc, false, [])
  | fuel+1, acc, l :: ls => do
    let cmd ← get_line_command_str l
    match cmd with
    | some c =>
      if c = ".SUBCKT".toList then do
        let (subAcc, finished, rest) ← add_lines_aux fuel [.line l] ls
        if finished then add_lines_aux fuel (acc ++ [.sub subAcc]) rest
        else .ok (acc, false, rest)
      else if c = ['+'] then
        match acc.getLast? with
        | none => .error .assertionError
        | some (.sub _) => .error .typeError
        | some (.line prev) =>
          add_lines_aux fuel (acc.dropLast ++ [.line (prev ++ l)]) ls
      else do
        let acc := acc ++ [.line l]
        if c.take 4 = ".END".toList then .ok (acc, true, ls)
        else add_lines_aux fuel acc ls
    | none =>
      -- Python: get_line_command returned None, and `cmd[:4]` then raises.
      .error .typeError

def add_lines_fuel (lines : List Chars) : Nat := 2 * lines.length + 4

/-- `_add_lines` as called on a whole line source. -/
def add_lines (lines : List Chars) : Except Err (List Entry × Bool × List Chars) :=
  add_lines_aux (add_lines_fuel lines) [] lines

mutual

/-- Serialization of one entry (the body of `write_lines`). -/
def write_entry : Entry → Chars
  | .line l => l
  | .sub es => write_lines es

/-- `write_lines`: recursive serialization of a node's entries. -/
def write_lines : List Entry → Chars
  | [] => []
  | e :: rest => write_entry e ++ write_lines rest

end

theorem write_lines_append (a b : List Entry) :
    write_lines (a ++ b) = write_lines a ++ write_lines b := by
  induction a with
  | nil => simp [write_lines]
  | cons e rest ih =>
    cases e <;> simp [write_lines, write_entry, ih]

/-- `END_LINE_TERM`. -/
def END_LINE_TERM : Chars := ['\n']

/-- Scan of `SpiceCircuit.name()`: first entry whose text matches
`subckt_regex`; passing a nested node to `re.search` raises `TypeError` in
Python, modelled by the error on a `.sub` entry reached before a match. -/
def nameOf_scan : List Entry → Except Err Chars
  | [] => .error .runtimeError   -- loop exhausted: raise RuntimeError
  | .sub _ :: _ => .error .typeError
  | .line l :: rest =>
    match patSearch subckt_regex l with
    | some m =>
      match groupStr subckt_regex m "name" l with
      | some nm => .ok nm
      | none => .error .indexError
    | none => nameOf_scan rest

/-- `SpiceCircuit.name()`. -/
def nameOf (nl : List Entry) : Except Err Chars :=
  if nl.isEmpty then .error .runtimeError   -- "Empty Subcircuit"
  else nameOf_scan nl

/-- First loop of `setname`: replace the `name` group span of the first
entry matching `subckt_regex`, returning the updated list and the index at
which the match was found. -/
def setname_scan1 (new_name : Chars) : Nat → List Entry →
    Except Err (List Entry × Nat)
  | _, [] => .error .missingExpectedClause
  | _, .sub _ :: _ => .error .typeError
  | k, .line l :: rest =>
    match patSearch subckt_regex l with
    | some m =>
      match groupSpan subckt_regex m "name" with
      | some (s, e) => .ok (.line (l.take s ++ new_name ++ l.drop e) :: rest, k)
      | none => .error .indexError
    | none => do
      let (rest', i) ← setname_scan1 new_name (k+1) rest
      .ok (.line l :: rest', i)

/-- Second loop of `setname`: from the position where the `.SUBCKT` clause
was found, replace the first entry whose command is `.ENDS` by
`'.ENDS ' + new_name + END_LINE_TERM`. -/
def setname_scan2 (new_name : Chars) : List Entry → Except Err (List Entry)
  | [] => .error .missingExpectedClause
  | e :: rest => do
    let cmd ← get_line_command e
    if cmd = some ".ENDS".toList then
      .ok (.line (".ENDS ".toList ++ new_name ++ END_LINE_TERM) :: rest)
    else do
      let rest' ← setname_scan2 new_name rest
      .ok (e :: rest')

/-- `SpiceCircuit.setname`.  On an empty node the source appends a comment
(without line terminator, exactly as written) and fresh `.SUBCKT`/`.ENDS`
lines. -/
def setname (nl : List Entry) (new_name : Chars) : Except Err (List Entry) :=
  if nl.isEmpty then
    .ok [.line "* SpiceEditor Created this sub-circuit".toList,
         .line (".SUBCKT ".toList ++ new_name ++ END_LINE_TERM),
         .line (".ENDS ".toList ++ new_name ++ END_LINE_TERM)]
  else do
    let (nl1, i) ← setname_scan1 new_name 0 nl
    let tail' ← setname_scan2 new_name (nl1.drop i)
    .ok (nl1.take i ++ tail')

/-- `SpiceCircuit.clone`: the netlist list is copied (`netlist.copy()`, a
shallow copy — the aliasing consequences are analysed on the heap model
below), a sentinel comment is inserted at the front and another appended,
and when a (non-empty) new name is supplied the copy is renamed. -/
def clone_fn (nl : List Entry) (new_name : Option Chars) :
    Except Err (List Entry) :=
  let cl := (.line ("***** SpiceEditor Manipulated this sub-circuit ****".toList
      ++ END_LINE_TERM) :: nl)
    ++ [.line ("***** ENDS SpiceEditor ****".toList ++ END_LINE_TERM)]
  match new_name with
  | some nm => if nm.isEmpty then .ok cl else setname cl nm
  | none => .ok cl

/-- `SpiceCircuit._set_model_and_value` for a string value (the
`int`/`float` branch runs `format_eng` first; `format_eng` lives in
`base_editor.py`, which is not part of the sources, so the model takes the
already-formatted string).  An unknown element-prefix only logs an error and
returns with the netlist untouched, exactly as the source does. -/
def set_model_and_value (nl : List Entry) (component value : Chars) :
    Except Err (List Entry) :=
  match component.head? with
  | none => .error .indexError   -- component[0] on an empty designator
  | some pfx =>
    match component_replace_regexs pfx with
    | none => .ok nl             -- _logger.error(...); return
    | some pat => do
      let (line_no, l) ← get_line_starting_with nl component
      match patMatch pat l with
      | none => .error .unrecognizedSyntax
      | some m =>
        match groupSpan pat m "value" with
        | some (s, e) => .ok (nl.set line_no (.line (l.take s ++ value ++ l.drop e)))
        | none => .error .indexError   -- no group 'value' in this pattern

/-- `SpiceCircuit.get_component_info`, reduced to the fields the claims use:
the content of the `value` group and the line number. -/
def get_component_info (nl : List Entry) (component : Chars) :
    Except Err (Chars × Nat) :=
  match component.head? with
  | none => .error .indexError
  | some pfx =>
    match component_replace_regexs pfx with
    | none => .error .notImplemented   -- "Unsuported prefix"
    | some pat => do
      let (line_no, l) ← get_line_starting_with nl component
      match patMatch pat l with
      | none => .error .unrecognizedSyntax
      | some m =>
        match groupStr pat m "value" l with
        | some v => .ok (v, line_no)
        | none => .error .indexError

/-- `SpiceCircuit.get_component_value`. -/
def get_component_value (nl : List Entry) (element : Chars) : Except Err Chars :=
  (get_component_info nl element).map (·.1)

/-- `SpiceCircuit.remove_component`: the matched line is replaced by the
empty string (`self.netlist[line] = ''`) — the entry is blanked, not
removed. -/
def remove_component (nl : List Entry) (designator : Chars) :
    Except Err (List Entry) := do
  let (line_no, _) ← get_line_starting_with nl designator
  .ok (nl.set line_no (.line []))

/-- Scan of `_get_subckt` over the current node's entries: first nested node
whose `name()` equals the sought definition name.  The `.LIB`/`.INC` lines
the source collects on the way feed a file-system search
(`os.path.exists`, `find_subckt_in_lib`) that a shallow embedding cannot
perform; the model treats every library file as absent, which is also the
source's behaviour when no library file on disk matches. -/
def find_subckt_entry (target : Chars) : List Entry → Except Err (List Entry)
  | [] => .error .componentNotFound   -- f'Sub-circuit "..." not found'
  | .sub es :: rest => do
    let nm ← nameOf es
    if nm = target then .ok es else find_subckt_entry target rest
  | .line _ :: rest => find_subckt_entry target rest

/-- Path split used by `_get_subckt`:
`instance_name.split(SUBCKT_DIVIDER, 1)`. -/
def split_first_colon (s : Chars) : Chars × Option Chars :=
  let pre := s.takeWhile (· ≠ ':')
  let rest := s.dropWhile (· ≠ ':')
  match rest with
  | [] => (s, none)
  | _ :: tl => (pre, some tl)

/-- `SpiceCircuit._get_subckt`: resolve the sub-circuit definition used by
instance `instance_name` (a `:`-separated chain), recursing into the found
definition for the remaining path. -/
def get_subckt : Nat → List Entry → Chars → Except Err (List Entry)
  | 0, _, _ => .error .fuelExhausted
  | fuel+1, nl, instance_name => do
    let (subckt_ref, restPath) := split_first_colon instance_name
    let (_, l) ← get_line_starting_with nl subckt_ref
    match patSearch patX l with
    | none => .error .unrecognizedSyntax
    | some m =>
      match groupStr patX m "value" l with
      | none => .error .indexError
      | some subcircuit_name => do
        let sub ← find_subckt_entry subcircuit_name nl
        match restPath with
        | some r => get_subckt fuel sub r
        | none => .ok sub

/-- Fuel for `get_subckt` (one unit per path segment is enough; the length
of the instance name is a generous bound). -/
def get_subckt_fuel (instance_name : Chars) : Nat := instance_name.length + 1

/-! ### The editor level (`SpiceEditor`) -/

/-- The mutable state of a `SpiceEditor`: a top-level netlist plus the
`modified_subcircuits` table mapping instantiation paths to their
specialized clones (a Python `dict`, modelled as an insertion-ordered
association list). -/
structure EditorState where
  netlist : List Entry
  modified_subcircuits : List (Chars × List Entry)
deriving DecidableEq, Repr

/-- Association-list lookup (Python `path in dict` / `dict[path]`). -/
def alookup : List (Chars × List Entry) → Chars → Option (List Entry)
  | [], _ => none
  | (k, v) :: rest, key => if k = key then some v else alookup rest key

/-- Association-list store (Python `dict[path] = v`: overwrite in place,
else append, preserving insertion order). -/
def aset : List (Chars × List Entry) → Chars → List Entry →
    List (Chars × List Entry)
  | [], key, v => [(key, v)]
  | (k, w) :: rest, key, v =>
    if k = key then (key, v) :: rest else (k, w) :: aset rest key v

/-- Python `component.split(':')`. -/
def split_all_colon : Chars → List Chars
  | [] => [[]]
  | c :: rest =>
    if c = ':' then [] :: split_all_colon rest
    else
      match split_all_colon rest with
      | h :: t => (c :: h) :: t
      | [] => [[c]]

/-- `SUBCKT_DIVIDER.join(parts)`. -/
def join_colon (parts : List Chars) : Chars := List.intercalate [':'] parts

/-- `'_'.join(parts)`. -/
def join_underscore (parts : List Chars) : Chars := List.intercalate ['_'] parts

/-- `SpiceEditor._set_model_and_value` (the override adding per-instance
specialization).  For a designator `X...:...` the instance path is resolved,
its shared definition cloned under `name + '_' + '_'.join(path parts)`,
registered in `modified_subcircuits`, the calling instance line rewritten to
the clone's name (a recursive call, which for deeper paths specializes the
enclosing instances too), and the edit applied to the registered clone.
Python mutates the registered clone object in place; the pure model applies
the edit and re-stores it under the same key, which is observationally the
same since the table holds the only editor reference to the clone.  The fuel
decreases with the path length; `editor_set_model_and_value` supplies enough. -/
def editor_set_aux : Nat → EditorState → Chars → Chars → Except Err EditorState
  | 0, _, _, _ => .error .fuelExhausted
  | fuel+1, st, component, value =>
    match component.head? with
    | none => .error .indexError
    | some pfx =>
      if pfx = 'X' ∧ ':' ∈ component then
        let parts := split_all_colon component
        let modified_path := join_colon parts.dropLast
        let comp := (parts.getLast?).getD []
        match alookup st.modified_subcircuits modified_path with
        | some sub_circuit => do
          let sub' ← set_model_and_value sub_circuit comp value
          .ok { st with
            modified_subcircuits := aset st.modified_subcircuits modified_path sub' }
        | none => do
          let orig ← get_subckt (get_subckt_fuel modified_path) st.netlist modified_path
          let nm ← nameOf orig
          let new_name := nm ++ ['_'] ++ join_underscore parts.dropLast
          let cl ← clone_fn orig (some new_name)
          let st1 := { st with
            modified_subcircuits := aset st.modified_subcircuits modified_path cl }
          let st2 ← editor_set_aux fuel st1 modified_path new_name
          let cl2 ← set_model_and_value cl comp value
          .ok { st2 with
            modified_subcircuits := aset st2.modified_subcircuits modified_path cl2 }
      else do
        let nl ← set_model_and_value st.netlist component value
        .ok { st with netlist := nl }

/-- `SpiceEditor._set_model_and_value` with sufficient fuel; this is what
`set_component_value` and `set_element_model` call. -/
def editor_set_model_and_value (st : EditorState) (component value : Chars) :
    Except Err EditorState :=
  editor_set_aux (component.length + 1) st component value

/-- Modelled from the spec: `UNIQUE_SIMULATION_DOT_INSTRUCTIONS` is imported
from `base_editor.py`, which is not among the sources.  Per the spec it is
the configurable set of directive kinds of which at most one may exist in a
document — the simulation-analysis directives (e.g. a transient-analysis
directive). -/
def UNIQUE_SIMULATION_DOT_INSTRUCTIONS : List Chars :=
  [".AC".toList, ".DC".toList, ".NOISE".toList, ".OP".toList,
   ".TF".toList, ".TRAN".toList]

/-- `_is_unique_instruction` (a `None` command — an all-blank line — is not
in the set, so it yields `false`, as in Python). -/
def is_unique_instruction (e : Entry) : Except Err Bool := do
  let cmd ← get_line_command e
  match cmd with
  | some c => .ok (c ∈ UNIQUE_SIMULATION_DOT_INSTRUCTIONS)
  | none => .ok false

/-- The replace loop of `add_instruction`: overwrite the first entry that is
itself a unique instruction (of any unique kind — the source does not compare
kinds) with the new instruction text. -/
def replace_first_unique (ins : Chars) : List Entry → Except Err (List Entry)
  | [] => .ok []
  | e :: rest => do
    let u ← is_unique_instruction e
    if u then .ok (.line ins :: rest)
    else do
      let rest' ← replace_first_unique ins rest
      .ok (e :: rest')

/-- Python `list.insert` semantics (negative indexes count from the end and
clamp). -/
def py_insert (nl : List Entry) (i : Int) (e : Entry) : List Entry :=
  let pos : Nat :=
    if i < 0 then ((nl.length : Int) + i).toNat
    else min nl.length i.toNat
  nl.take pos ++ [e] ++ nl.drop pos

/-- `SpiceEditor.add_instruction`.  The instruction gets a line terminator
if missing; a unique instruction replaces the first existing unique
instruction; then, unless the exact text is already present, it is inserted
before `.backanno\n` (or at `len - 2` when absent).  The `.PARAM` branch
only logs a warning (but evaluates `get_line_command`, whose `SyntaxError`
propagates). -/
def add_instruction (nl : List Entry) (instr : Chars) : Except Err (List Entry) := do
  let ins := if instr.getLast? = some '\n' then instr else instr ++ END_LINE_TERM
  let u ← is_unique_instruction (.line ins)
  let nl1 ← if u then replace_first_unique ins nl
    else do
      let _ ← get_line_command (.line ins)   -- the .PARAM warning branch
      pure nl
  if (Entry.line ins) ∈ nl1 then .ok nl1
  else
    let idx : Int :=
      match nl1.findIdx? (fun e => e = Entry.line (".backanno".toList ++ END_LINE_TERM)) with
      | some i => (i : Int)
      | none => (nl1.length : Int) - 2
    .ok (py_insert nl1 idx (.line ins))

/-- `SpiceEditor.remove_instruction`: `list.remove` of the exact text (after
appending the line terminator when missing); a miss raises `ValueError`. -/
def remove_instruction (nl : List Entry) (instr : Chars) : Except Err (List Entry) :=
  let ins := if instr.getLast? = some '\n' then instr else instr ++ END_LINE_TERM
  if (Entry.line ins) ∈ nl then
    .ok (nl.eraseP (fun e => e = Entry.line ins))
  else .error .valueError

/-- The text of all registered specialized clones, in table (insertion)
order — what `write_netlist` interleaves before the `.END` clause. -/
def modified_text (modified : List (Chars × List Entry)) : Chars :=
  (modified.map (fun p => write_lines p.2)).flatten

/-- `SpiceEditor.write_netlist`, as the content written: entries in order,
nested nodes flattened; immediately before any top-level line whose
upper-cased text starts with `.END`, every registered clone's full text is
emitted. -/
def write_netlist_text (nl : List Entry) (modified : List (Chars × List Entry)) :
    Chars :=
  match nl with
  | [] => []
  | .sub es :: rest => write_lines es ++ write_netlist_text rest modified
  | .line l :: rest =>
    (if ".END".toList.isPrefixOf (l.map Char.toUpper) then modified_text modified
     else [])
      ++ l ++ write_netlist_text rest modified

/-- `SpiceEditor.reset_netlist`: clear the netlist and the clone table and
re-parse the backing template (given here as its list of lines); a parse
that does not close properly raises
`SyntaxError("Netlist with missing .END or .ENDS statements")`. -/
def reset_netlist (lines : List Chars) : Except Err EditorState := do
  let (es, finished, _) ← add_lines lines
  if finished then .ok { netlist := es, modified_subcircuits := [] }
  else .error .syntaxError

/-! ### The task scheduler (`SimRunner`, `sim/sim_runner.py`)

`RunTask` is imported from `sim/run_task.py`, which is not among the
sources; its fields are modelled from the spec: one scheduled unit of work
with a sequence number, start timestamp, liveness, a return status set when
the external process exits, and an individual timeout.  Clock values are
abstract `Nat` instants. -/

/-- Modelled from the spec: a `RunTask` as the scheduler sees it — sequence
number, whether its supervising thread `is_alive()`, the recorded `retcode`
(meaningful once it is no longer alive; `0` is success), its `start_time`
and its `timeout`. -/
structure RTask where
  runno : Nat
  alive : Bool
  retcode : Int
  start_time : Nat
  timeout : Option Nat
deriving DecidableEq, Repr

/-- `SimRunner` bookkeeping state: the two disjoint task collections and the
counters. -/
structure RunnerState where
  active_tasks : List RTask
  completed_tasks : List RTask
  okSim : Nat
  failSim : Nat
  runno : Nat
deriving DecidableEq, Repr

/-- Fixed configuration of a `SimRunner`: the parallelism cap and the
constructor timeout. -/
structure RunnerCfg where
  parallel_sims : Nat
  timeout : Option Nat
deriving DecidableEq, Repr

def initialRunnerState : RunnerState :=
  { active_tasks := [], completed_tasks := [], okSim := 0, failSim := 0, runno := 0 }

/-- The scan of `update_completed`: split the active list into the tasks
still alive (kept, in order) and the finished ones (moved, in order). -/
def update_scan : List RTask → List RTask × List RTask
  | [] => ([], [])
  | t :: rest =>
    let (a, m) := update_scan rest
    if t.alive then (t :: a, m) else (a, t :: m)

/-- `SimRunner.update_completed`: move each finished task from the active to
the completed list, counting a success per zero `retcode` and a failure
otherwise. -/
def update_completed (st : RunnerState) : RunnerState :=
  let (a, m) := update_scan st.active_tasks
  { st with
    active_tasks := a,
    completed_tasks := st.completed_tasks ++ m,
    okSim := st.okSim + m.countP (fun t => t.retcode = 0),
    failSim := st.failSim + m.countP (fun t => t.retcode ≠ 0) }

/-- `SimRunner.active_threads()` (updates, then counts). -/
def active_threads (st : RunnerState) : Nat × RunnerState :=
  let st' := update_completed st
  (st'.active_tasks.length, st')

/-- An external process exit: the task with the given sequence number stops
being alive and records its return code.  (This is the environment's doing,
not the scheduler's.) -/
def apply_exit (st : RunnerState) (rno : Nat) (rc : Int) : RunnerState :=
  { st with active_tasks := st.active_tasks.map (fun t =>
      if t.runno = rno then { t with alive := false, retcode := rc } else t) }

/-- Observable events of a `SimRunner` used by the concurrency claims: a
`run()` call (with its `wait_resource` flag and the clock instant at which
the task would start), a `update_completed`/`active_threads` poll, and an
external process exit. -/
inductive SimEv where
  | launch (wait_resource : Bool) (now : Nat)
  | poll
  | taskExit (rno : Nat) (rc : Int)
deriving DecidableEq, Repr

/-- One step of the scheduler.  `run()` increments `runno` in `_prepare_sim`
unconditionally; with `wait_resource = False` the task starts immediately;
otherwise it starts only when `active_threads() < parallel_sims` (the
source's polling loop retries this guard until a slot frees or its wait
times out and refuses — either way every start happens under the guard).
The started `RunTask` receives `timeout=self.timeout` (the source passes the
constructor timeout through, regardless of the per-call override). -/
def sim_step (cfg : RunnerCfg) (st : RunnerState) : SimEv → RunnerState
  | .launch wait_resource now =>
    let st := { st with runno := st.runno + 1 }
    let task : RTask :=
      { runno := st.runno, alive := true, retcode := -1,
        start_time := now, timeout := cfg.timeout }
    if wait_resource = false then
      { st with active_tasks := st.active_tasks ++ [task] }
    else
      let (n, st') := active_threads st
      if n < cfg.parallel_sims then
        { st' with active_tasks := st'.active_tasks ++ [task] }
      else st'   -- refusal: logged, no task started
  | .poll => update_completed st
  | .taskExit rno rc => apply_exit st rno rc

/-- A run of the scheduler from the initial state. -/
def sim_run (cfg : RunnerCfg) (evs : List SimEv) : RunnerState :=
  evs.foldl (sim_step cfg) initialRunnerState

/-- Whether an event is a launch with `wait_resource` disabled. -/
def isNoWaitLaunch : SimEv → Bool
  | .launch wait_resource _ => !wait_resource
  | _ => false

/-- `SimRunner._maximum_stop_time`: latest `start_time + timeout` over the
active tasks, each task's own timeout defaulting to the runner's; `none`
when no timeout is defined anywhere. -/
def maximum_stop_time (st : RunnerState) (selfTimeout : Option Nat) : Option Nat :=
  st.active_tasks.foldl (fun alarm task =>
    match (match task.timeout with | some t => some t | none => selfTimeout) with
    | some tout =>
      let stop := task.start_time + tout
      match alarm with
      | none => some stop
      | some a => if stop > a then some stop else some a
    | none => alarm) none

/-- One environment step observed by `wait_completion` while it sleeps: how
far the clock advances, and which active tasks' processes exit (with their
return codes) during that interval. -/
structure WaitStep where
  tick : Nat
  exits : List (Nat × Int)
deriving DecidableEq, Repr

def apply_exits (st : RunnerState) : List (Nat × Int) → RunnerState
  | [] => st
  | (rno, rc) :: rest => apply_exits (apply_exit st rno rc) rest

/-- The waiting loop of `wait_completion` after the initial
`update_completed`: while tasks are active, sleep (the environment step),
update, recompute the derived deadline when no explicit timeout was given,
and give up returning `false` when the clock has passed the deadline;
when the active set drains, return `failSim == 0`.  The final state is
returned alongside so the outcome can be related to the recorded statuses;
`none` means the supplied schedule ended before the loop did. -/
def wait_loop (selfTimeout : Option Nat) (stopFixed : Option Nat)
    (useFixed : Bool) :
    RunnerState → Nat → List WaitStep → Option (Bool × RunnerState)
  | st, _, [] =>
    if st.active_tasks.isEmpty then some (decide (st.failSim = 0), st) else none
  | st, now, step :: rest =>
    if st.active_tasks.isEmpty then some (decide (st.failSim = 0), st)
    else
      match (if useFixed then stopFixed
          else maximum_stop_time (update_completed (apply_exits st step.exits))
            selfTimeout) with
      | some s =>
        if now + step.tick > s then
          some (false, update_completed (apply_exits st step.exits))
        else wait_loop selfTimeout stopFixed useFixed
          (update_completed (apply_exits st step.exits)) (now + step.tick) rest
      | none => wait_loop selfTimeout stopFixed useFixed
          (update_completed (apply_exits st step.exits)) (now + step.tick) rest

/-- `SimRunner.wait_completion(timeout, abort_all_on_timeout)`: the initial
`update_completed`, the fixed deadline `now + timeout` when an explicit
timeout is given, then the waiting loop.  (`abort_all_on_timeout` only
kills external processes; it does not change the returned value or the task
collections, so it has no bearing here.) -/
def wait_completion (st : RunnerState) (selfTimeout : Option Nat)
    (timeout : Option Nat) (now : Nat) (sched : List WaitStep) :
    Option (Bool × RunnerState) :=
  let st0 := update_completed st
  match timeout with
  | some t => wait_loop selfTimeout (some (now + t)) true st0 now sched
  | none => wait_loop selfTimeout none false st0 now sched

/-! ### File names (`pathlib` semantics for plain file names)

`SimRunner._run_file_name` works on `pathlib.Path` values; the artifact
claims only involve plain file names (no directory separators), for which
`suffix`, `stem` and `with_suffix` have the semantics below. -/

/-- Index of the last `'.'` in a name. -/
def lastDotIdx (n : Chars) : Option Nat :=
  match n.reverse.findIdx? (· = '.') with
  | some k => some (n.length - 1 - k)
  | none => none

/-- `Path(n).suffix`: from the last dot, provided that dot is neither the
leading character nor the final one. -/
def pySuffix (n : Chars) : Chars :=
  match lastDotIdx n with
  | some i => if 0 < i ∧ i + 1 < n.length then n.drop i else []
  | none => []

/-- `Path(n).stem`: the name without its suffix. -/
def pyStem (n : Chars) : Chars := n.take (n.length - (pySuffix n).length)

/-- `Path(n).with_suffix(suf)`: drop the current suffix, append the new
one. -/
def pyWithSuffix (n suf : Chars) : Chars := pyStem n ++ suf

/-- `SimRunner._run_file_name`.  When no explicit name is given the result
is `"%s_%i%s" % (netlist.stem, self.runno, netlist.suffix)`; in both
branches the source computes `….with_suffix('.net')` on a wrong-suffixed
path but discards the result (the call's value is never assigned), so the
original suffix survives — modelled exactly so. -/
def run_file_name (netlistName : Chars) (runno : Nat)
    (run_filename : Option Chars) : Chars :=
  match run_filename with
  | none => pyStem netlistName ++ ['_'] ++ (Nat.repr runno).toList
      ++ pySuffix netlistName
  | some r => r

/-- The artifact file name actually written for an editor-backed launch:
`_prepare_sim` increments `runno`, derives the run file name, and
`SpiceEditor.write_netlist` opens `run_netlist_file.with_suffix('.net')`. -/
def editor_artifact_name (templateName : Chars) (runnoBefore : Nat)
    (run_filename : Option Chars) : Chars :=
  pyWithSuffix (run_file_name templateName (runnoBefore + 1) run_filename)
    ".net".toList

/-! ### A heap model of `SpiceCircuit` objects

`SpiceCircuit.clone` copies the entry *list* (`self.netlist.copy()`); the
entries themselves — including nested `SpiceCircuit` objects — are shared
between the original and the copy.  The pure `List Entry` model cannot
express that aliasing, so the operations relevant to the cloning claim are
repeated here over an explicit heap: object identifiers index a store, and
a nested sub-circuit is a reference.  Each definition mirrors the same
source method as its pure counterpart. -/

/-- An entry of a heap-resident `SpiceCircuit.netlist`: a text line, or a
reference to another heap object (a nested `SpiceCircuit`). -/
inductive HEntry where
  | hline : Chars → HEntry
  | href : Nat → HEntry
deriving DecidableEq, Repr

/-- The store of `SpiceCircuit` objects; an object identifier is an index. -/
abbrev Heap := List (List HEntry)

/-- The text a heap object denotes (`write_lines` through references). -/
def render_obj : Nat → Heap → Nat → Chars
  | 0, _, _ => []
  | fuel+1, h, oid =>
    (((h.get? oid).getD []).map (fun e =>
      match e with
      | .hline s => s
      | .href j => render_obj fuel h j)).flatten

/-- Scan for `_get_line_starting_with` on heap entries. -/
def heap_glsw_aux (substr : Chars) : Nat → List HEntry → Except Err (Nat × Chars)
  | _, [] => .error .componentNotFound
  | k, .href _ :: rest => heap_glsw_aux substr (k+1) rest
  | k, .hline l :: rest =>
    if first_token_upped l = substr.map Char.toUpper then .ok (k, l)
    else heap_glsw_aux substr (k+1) rest

/-- `_get_line_starting_with` on heap entries (references — nested
sub-circuits — are skipped, like `isinstance(line, SpiceCircuit)`). -/
def heap_get_line_starting_with (es : List HEntry) (substr : Chars) :
    Except Err (Nat × Chars) :=
  heap_glsw_aux substr 0 es

/-- `SpiceCircuit._set_model_and_value` applied to heap object `oid` — the
in-place mutation every holder of a reference to `oid` observes. -/
def heap_set_model_and_value (h : Heap) (oid : Nat) (component value : Chars) :
    Except Err Heap :=
  let es := (h.get? oid).getD []
  match component.head? with
  | none => .error .indexError
  | some pfx =>
    match component_replace_regexs pfx with
    | none => .ok h
    | some pat => do
      let (line_no, l) ← heap_get_line_starting_with es component
      match patMatch pat l with
      | none => .error .unrecognizedSyntax
      | some m =>
        match groupSpan pat m "value" with
        | some (s, e) =>
          .ok (h.set oid (es.set line_no (.hline (l.take s ++ value ++ l.drop e))))
        | none => .error .indexError

/-- Scan of `SpiceCircuit.name()` on heap entries. -/
def heap_name_scan : List HEntry → Except Err Chars
  | [] => .error .runtimeError
  | .href _ :: _ => .error .typeError
  | .hline l :: rest =>
    match patSearch subckt_regex l with
    | some m =>
      match groupStr subckt_regex m "name" l with
      | some nm => .ok nm
      | none => .error .indexError
    | none => heap_name_scan rest

/-- `SpiceCircuit.name()` on a heap object. -/
def heap_name (h : Heap) (oid : Nat) : Except Err Chars :=
  let es := (h.get? oid).getD []
  if es.isEmpty then .error .runtimeError
  else heap_name_scan es

/-- The definition-search loop of `_get_subckt` on heap entries: first
nested reference whose object is named `target`. -/
def heap_find_subckt (h : Heap) (target : Chars) : List HEntry → Except Err Nat
  | [] => .error .componentNotFound
  | .href j :: rest => do
    let nm ← heap_name h j
    if nm = target then .ok j else heap_find_subckt h target rest
  | .hline _ :: rest => heap_find_subckt h target rest

/-- `SpiceCircuit._get_subckt` on the heap (single path segment — what the
cloning scenario needs): resolve which heap object the instance line refers
to. -/
def heap_get_subckt (h : Heap) (oid : Nat) (instance_name : Chars) :
    Except Err Nat := do
  let es := (h.get? oid).getD []
  let (_, l) ← heap_get_line_starting_with es instance_name
  match patSearch patX l with
  | none => .error .unrecognizedSyntax
  | some m =>
    match groupStr patX m "value" l with
    | none => .error .indexError
    | some subcircuit_name => heap_find_subckt h subcircuit_name es

/-- First loop of `setname` on heap entries (also yields the index where the
`.SUBCKT` clause was found, where the second loop starts). -/
def heap_setname_scan1 (new_name : Chars) : Nat → List HEntry →
    Except Err (List HEntry × Nat)
  | _, [] => .error .missingExpectedClause
  | _, .href _ :: _ => .error .typeError
  | k, .hline l :: rest =>
    match patSearch subckt_regex l with
    | some m =>
      match groupSpan subckt_regex m "name" with
      | some (s, e) => .ok (.hline (l.take s ++ new_name ++ l.drop e) :: rest, k)
      | none => .error .indexError
    | none => do
      let (rest', i) ← heap_setname_scan1 new_name (k+1) rest
      .ok (.hline l :: rest', i)

/-- Command of a heap entry (`get_line_command`; a reference is a nested
`SpiceCircuit`, hence `.SUBCKT`). -/
def heap_line_command : HEntry → Except Err (Option Chars)
  | .href _ => .ok (some ".SUBCKT".toList)
  | .hline l => get_line_command_str l

/-- Second loop of `setname` on heap entries. -/
def heap_setname_scan2 (new_name : Chars) : List HEntry → Except Err (List HEntry)
  | [] => .error .missingExpectedClause
  | e :: rest => do
    let cmd ← heap_line_command e
    if cmd = some ".ENDS".toList then
      .ok (.hline (".ENDS ".toList ++ new_name ++ END_LINE_TERM) :: rest)
    else do
      let rest' ← heap_setname_scan2 new_name rest
      .ok (e :: rest')

/-- `setname` on a heap entry list: replace the name in the `.SUBCKT`
clause, then replace the first `.ENDS` line from that position on. -/
def heap_setname (es : List HEntry) (new_name : Chars) :
    Except Err (List HEntry) :=
  if es.isEmpty then
    .ok [.hline "* SpiceEditor Created this sub-circuit".toList,
         .hline (".SUBCKT ".toList ++ new_name ++ END_LINE_TERM),
         .hline (".ENDS ".toList ++ new_name ++ END_LINE_TERM)]
  else do
    let (es1, i) ← heap_setname_scan1 new_name 0 es
    let tail' ← heap_setname_scan2 new_name (es1.drop i)
    .ok (es1.take i ++ tail')

/-- `SpiceCircuit.clone` on the heap: a *new object* whose entry list is
`self.netlist.copy()` with the sentinel comments added — the nested
references are the very same references (a shallow copy), and the copy is
renamed when a new name is given.  Returns the new heap and the clone's
identifier. -/
def heap_clone (h : Heap) (oid : Nat) (new_name : Option Chars) :
    Except Err (Heap × Nat) := do
  let es := (h.get? oid).getD []
  let cl := (.hline ("***** SpiceEditor Manipulated this sub-circuit ****".toList
      ++ END_LINE_TERM) :: es)
    ++ [.hline ("***** ENDS SpiceEditor ****".toList ++ END_LINE_TERM)]
  match new_name with
  | some nm =>
    if nm.isEmpty then .ok (h ++ [cl], h.length)
    else do
      let cl' ← heap_setname cl nm
      .ok (h ++ [cl'], h.length)
  | none => .ok (h ++ [cl], h.length)

/-! ### Concrete data used by the witnesses and counterexamples -/

/-- A small well-formed template: a comment, a shared sub-circuit
definition, two instantiations of it, a source with a continuation line,
the `.backanno` marker and the closing directive. -/
def exTemplate : List Chars :=
  ["* test\n", ".SUBCKT SUB 1 2\n", "R1 1 2 2k\n", ".ENDS SUB\n",
   "X1 a b SUB\n", "X2 a b SUB\n", "R5 1 0 2k\n", "V1 1 0 5\n",
   ".backanno\n", ".end\n"].map String.toList

/-- The parsed form of `exTemplate`. -/
def exNetlist : List Entry :=
  [.line "* test\n".toList,
   .sub [.line ".SUBCKT SUB 1 2\n".toList, .line "R1 1 2 2k\n".toList,
         .line ".ENDS SUB\n".toList],
   .line "X1 a b SUB\n".toList, .line "X2 a b SUB\n".toList,
   .line "R5 1 0 2k\n".toList, .line "V1 1 0 5\n".toList,
   .line ".backanno\n".toList, .line ".end\n".toList]

/-- The editor state backed by `exTemplate`, before any edit. -/
def exState : EditorState := { netlist := exNetlist, modified_subcircuits := [] }

/-- Heap example for the cloning claim: object 0 is the nested sub-circuit
`T`, object 1 is `S`, which owns one text instance line `X1` and the nested
node `T` (a reference). -/
def c2_objT : List HEntry :=
  [.hline ".SUBCKT T a b\n".toList, .hline "R1 a b 2k\n".toList,
   .hline ".ENDS T\n".toList]

def c2_objS : List HEntry :=
  [.hline ".SUBCKT S a b\n".toList, .href 0, .hline "X1 a b T\n".toList,
   .hline ".ENDS S\n".toList]

def c2_h0 : Heap := [c2_objT, c2_objS]

/-- The heap after cloning `S` under the name `S2`. -/
def c2_h1 : Heap :=
  ((heap_clone c2_h0 1 (some "S2".toList)).map Prod.fst).toOption.getD []

/-- The heap after editing `R1` inside the nested node reached through the
clone. -/
def c2_h2 : Heap :=
  (heap_set_model_and_value c2_h1 0 "R1".toList "5".toList).toOption.getD []

/-! ## Claim C2 -/

/-- C2: the claim states that `clone` deep-copies all entries, nested
sub-circuit nodes included, so that no entry is shared between clone and
original and no edit applied to the clone at any nesting depth can change
the original.  The code instead performs `clone.netlist = self.netlist.copy()`
— a shallow copy — so a nested node is the *same object* in both lists.
On the heap model: cloning `S` (object 1, whose nested `T` is object 0)
yields object 2 which still references object 0; resolving `X1` through the
clone yields the shared object 0; editing `R1` there changes the rendered
content of the *original* `S`.  The sentinel wrapping and the renaming of
the `.SUBCKT`/`.ENDS` identifiers, by contrast, do work as described. -/
theorem c2_clone_shallow_sharing :
    heap_clone c2_h0 1 (some "S2".toList) = .ok (c2_h1, 2)
    ∧ HEntry.href 0 ∈ (c2_h1.get? 2).getD []
    ∧ HEntry.href 0 ∈ (c2_h1.get? 1).getD []
    ∧ heap_get_subckt c2_h1 2 "X1".toList = .ok 0
    ∧ heap_set_model_and_value c2_h1 0 "R1".toList "5".toList = .ok c2_h2
    ∧ render_obj 10 c2_h0 1
      = ".SUBCKT S a b\n.SUBCKT T a b\nR1 a b 2k\n.ENDS T\nX1 a b T\n.ENDS S\n".toList
    ∧ render_obj 10 c2_h2 1
      = ".SUBCKT S a b\n.SUBCKT T a b\nR1 a b 5\n.ENDS T\nX1 a b T\n.ENDS S\n".toList
    ∧ render_obj 10 c2_h2 1 ≠ render_obj 10 c2_h0 1
    ∧ render_obj 10 c2_h1 2
      = ("***** SpiceEditor Manipulated this sub-circuit ****\n.SUBCKT S2 a b\n"
        ++ ".SUBCKT T a b\nR1 a b 2k\n.ENDS T\nX1 a b T\n.ENDS S2\n"
        ++ "***** ENDS SpiceEditor ****\n").toList := by
  refine ⟨by decide, by decide, by decide, by decide, by decide, by decide,
    by decide, by decide, by decide⟩

/-! ## Claim C9 -/

/-- C9: the claim states the artifact name's suffix is normalized to
`.net`.  `_run_file_name` logs a warning saying the suffix is "reset to
'.net'" but the `with_suffix('.net')` result is discarded in both branches
(never assigned), so for a template `circuit.asc` the run file for
sequence number 1 is named `circuit_1.asc`, not `circuit_1.net`, and a
caller-supplied `out.cir` is returned unchanged.  (Only the editor-backed
serialization path hides this, because `SpiceEditor.write_netlist` itself
re-applies `with_suffix('.net')` to the path it opens.) -/
theorem c9_run_file_name_keeps_suffix :
    run_file_name "circuit.asc".toList 1 none = "circuit_1.asc".toList
    ∧ run_file_name "circuit.asc".toList 1 none ≠ "circuit_1.net".toList
    ∧ run_file_name "tpl.net".toList 3 (some "out.cir".toList) = "out.cir".toList
    ∧ editor_artifact_name "circuit.asc".toList 0 none = "circuit_1.net".toList := by
  refine ⟨by decide, by decide, by decide, by decide⟩

/-! ## Claim C5 -/

/-- C5 counterexample: the claim states every unknown designator —
including one whose leading element-type character has no pattern — makes
`setComponentValue` and `getComponentValue` fail with `ComponentNotFound`.
For the designator `Y1` (no `'Y'` entry in `REPLACE_REGXES`):
`_set_model_and_value` only logs an error and returns, leaving the netlist
unchanged and raising nothing, and `get_component_info` raises
`NotImplementedError`, not `ComponentNotFoundError`. -/
theorem c5_counterexample :
    editor_set_model_and_value exState "Y1".toList "5".toList = .ok exState
    ∧ get_component_value exState.netlist "Y1".toList = .error .notImplemented
    ∧ Err.notImplemented ≠ Err.componentNotFound := by
  refine ⟨by decide, by decide, by decide⟩

/-- C5 (amended): for a designator whose element-type character does have a
pattern but which starts no line of the netlist, both edit and lookup fail
with `ComponentNotFound` — the failure is raised by
`_get_line_starting_with` before any mutation, so the netlist is untouched.
(Designators with an unsupported type character instead no-op on set and
raise `NotImplementedError` on get, per the counterexample.) -/
theorem c5_unknown_supported_fails (nl : List Entry) (d v : Chars)
    (pfx : Char) (pat : Pattern)
    (hhead : d.head? = some pfx)
    (hpat : component_replace_regexs pfx = some pat)
    (hfind : get_line_starting_with nl d = .error .componentNotFound) :
    set_model_and_value nl d v = .error .componentNotFound
    ∧ get_component_value nl d = .error .componentNotFound := by
  constructor
  · simp only [set_model_and_value, hhead, hpat, hfind]
    rfl
  · simp only [get_component_value, get_component_info, hhead, hpat, hfind]
    rfl

/-- C5 witness: the amended theorem applied to the example netlist and the
absent (but supported-prefix) designator `R9`. -/
theorem c5_witness :
    ("R9".toList.head? = some 'R'
      ∧ component_replace_regexs 'R' = some patR
      ∧ get_line_starting_with exNetlist "R9".toList = .error .componentNotFound)
    ∧ set_model_and_value exNetlist "R9".toList "1k".toList = .error .componentNotFound
    ∧ get_component_value exNetlist "R9".toList = .error .componentNotFound := by
  refine ⟨⟨by decide, rfl, by decide⟩, ?_, ?_⟩
  · exact (c5_unknown_supported_fails exNetlist "R9".toList "1k".toList 'R' patR
      (by decide) rfl (by decide)).1
  · exact (c5_unknown_supported_fails exNetlist "R9".toList "1k".toList 'R' patR
      (by decide) rfl (by decide)).2

/-! ## Claim C7 -/

theorem update_scan_fst_length (l : List RTask) :
    (update_scan l).1.length ≤ l.length := by
  induction l with
  | nil => simp [update_scan]
  | cons t rest ih =>
    simp only [update_scan]
    by_cases h : t.alive <;> simp [h] <;> omega

theorem update_completed_active_le (st : RunnerState) :
    (update_completed st).active_tasks.length ≤ st.active_tasks.length := by
  simpa [update_completed] using update_scan_fst_length st.active_tasks

theorem sim_step_active_le (cfg : RunnerCfg) (st : RunnerState) (ev : SimEv)
    (hev : isNoWaitLaunch ev = false)
    (h : st.active_tasks.length ≤ cfg.parallel_sims) :
    (sim_step cfg st ev).active_tasks.length ≤ cfg.parallel_sims := by
  cases ev with
  | launch wait_resource now =>
    have hw : wait_resource = true := by
      cases wait_resource
      · simp [isNoWaitLaunch] at hev
      · rfl
    subst hw
    have hle : (update_completed { st with runno := st.runno + 1 }).active_tasks.length
        ≤ st.active_tasks.length :=
      update_completed_active_le { st with runno := st.runno + 1 }
    simp only [sim_step, active_threads]
    rw [if_neg (by simp : ¬(true = false))]
    by_cases hcap :
        (update_completed { st with runno := st.runno + 1 }).active_tasks.length
          < cfg.parallel_sims
    · rw [if_pos hcap]
      simp only [List.length_append, List.length_cons, List.length_nil]
      omega
    · rw [if_neg hcap]
      exact le_trans hle h
  | poll => exact le_trans (update_completed_active_le st) h
  | taskExit rno rc => simpa [sim_step, apply_exit] using h

theorem sim_run_foldl_le (cfg : RunnerCfg) :
    ∀ (evs : List SimEv) (st : RunnerState),
      evs.all (fun e => !isNoWaitLaunch e) = true →
      st.active_tasks.length ≤ cfg.parallel_sims →
      (evs.foldl (sim_step cfg) st).active_tasks.length ≤ cfg.parallel_sims := by
  intro evs
  induction evs with
  | nil => intro st _ h; simpa using h
  | cons e rest ih =>
    intro st hall h
    have hall' : isNoWaitLaunch e = false
        ∧ rest.all (fun e => !isNoWaitLaunch e) = true := by
      simpa using hall
    exact ih _ hall'.2 (sim_step_active_le cfg st e hall'.1 h)

/-- C7: when every `run()` call waits for a free slot (`wait_resource`
enabled), the number of active tasks never exceeds the configured
parallelism cap at any observation point: after every prefix of any event
sequence (launches, polls, external process exits), the scheduler state
satisfies `active_tasks.length ≤ parallel_sims`.  Launching is guarded by
`active_threads() < self.parallel_sims`, polls only move tasks out of the
active list, and exits do not change its length. -/
theorem c7_parallel_cap (cfg : RunnerCfg) (evs : List SimEv)
    (hwait : evs.all (fun e => !isNoWaitLaunch e) = true) :
    ∀ n, (sim_run cfg (evs.take n)).active_tasks.length ≤ cfg.parallel_sims := by
  intro n
  apply sim_run_foldl_le cfg (evs.take n) initialRunnerState
  · simp only [List.all_eq_true] at hwait ⊢
    exact fun x hx => hwait x (List.mem_of_mem_take hx)
  · simp [initialRunnerState]

/-- Event trace for the C7 witness: six wait-enabled launch requests against
a cap of 2, interleaved with exits and polls. -/
def c7_evs : List SimEv :=
  [.launch true 0, .launch true 0, .launch true 1, .taskExit 1 0, .poll,
   .launch true 2, .launch true 3, .taskExit 2 1, .launch true 4]

/-- C7 witness: the cap invariant evaluated on the concrete trace. -/
theorem c7_witness :
    c7_evs.all (fun e => !isNoWaitLaunch e) = true
    ∧ (sim_run ⟨2, none⟩ (c7_evs.take 7)).active_tasks.length ≤ 2
    ∧ (sim_run ⟨2, none⟩ (c7_evs.take 9)).active_tasks.length ≤ 2 := by
  refine ⟨by decide, ?_, ?_⟩
  · exact c7_parallel_cap ⟨2, none⟩ c7_evs (by decide) 7
  · exact c7_parallel_cap ⟨2, none⟩ c7_evs (by decide) 9

/-! ## Claim C8 -/

/-- The counter invariant of a `SimRunner`: `failSim` counts exactly the
completed tasks whose recorded status is a failure.  It holds for the
freshly constructed runner and is preserved by every modelled operation. -/
def runner_inv (st : RunnerState) : Prop :=
  st.failSim = st.completed_tasks.countP (fun t => t.retcode ≠ 0)

instance (st : RunnerState) : Decidable (runner_inv st) := by
  unfold runner_inv; infer_instance

theorem apply_exits_completed (exits : List (Nat × Int)) :
    ∀ st : RunnerState, (apply_exits st exits).completed_tasks = st.completed_tasks
      ∧ (apply_exits st exits).failSim = st.failSim
      ∧ (apply_exits st exits).okSim = st.okSim := by
  induction exits with
  | nil => intro st; exact ⟨rfl, rfl, rfl⟩
  | cons e rest ih =>
    intro st
    simpa [apply_exits] using ih (apply_exit st e.1 e.2)

theorem update_completed_inv (st : RunnerState) (h : runner_inv st) :
    runner_inv (update_completed st) := by
  unfold runner_inv at h ⊢
  simp [update_completed, List.countP_append, h]

theorem apply_exits_inv (st : RunnerState) (exits : List (Nat × Int))
    (h : runner_inv st) : runner_inv (apply_exits st exits) := by
  unfold runner_inv at h ⊢
  rw [(apply_exits_completed exits st).1, (apply_exits_completed exits st).2.1]
  exact h

theorem wait_loop_spec (sT sF : Option Nat) (uF : Bool) :
    ∀ (sched : List WaitStep) (st : RunnerState) (now : Nat) (b : Bool)
      (st' : RunnerState), runner_inv st →
      wait_loop sT sF uF st now sched = some (b, st') →
      runner_inv st' ∧ (b = true → st'.active_tasks = [] ∧ st'.failSim = 0) := by
  intro sched
  induction sched with
  | nil =>
    intro st now b st' hinv hrun
    unfold wait_loop at hrun
    by_cases hempty : st.active_tasks.isEmpty = true
    · rw [if_pos hempty] at hrun
      simp only [Option.some.injEq, Prod.mk.injEq] at hrun
      obtain ⟨hb, hst⟩ := hrun
      subst hst
      refine ⟨hinv, fun htrue => ?_⟩
      rw [← hb] at htrue
      exact ⟨List.isEmpty_iff.mp hempty, of_decide_eq_true htrue⟩
    · rw [if_neg hempty] at hrun
      cases hrun
  | cons step rest ih =>
    intro st now b st' hinv hrun
    unfold wait_loop at hrun
    by_cases hempty : st.active_tasks.isEmpty = true
    · rw [if_pos hempty] at hrun
      simp only [Option.some.injEq, Prod.mk.injEq] at hrun
      obtain ⟨hb, hst⟩ := hrun
      subst hst
      refine ⟨hinv, fun htrue => ?_⟩
      rw [← hb] at htrue
      exact ⟨List.isEmpty_iff.mp hempty, of_decide_eq_true htrue⟩
    · rw [if_neg hempty] at hrun
      have hinv1 : runner_inv (update_completed (apply_exits st step.exits)) :=
        update_completed_inv _ (apply_exits_inv st step.exits hinv)
      rcases hO : (if uF = true then sF
          else maximum_stop_time (update_completed (apply_exits st step.exits)) sT)
        with _ | s
      · rw [hO] at hrun
        dsimp only at hrun
        exact ih _ _ b st' hinv1 hrun
      · rw [hO] at hrun
        dsimp only at hrun
        by_cases ht : now + step.tick > s
        · rw [if_pos ht] at hrun
          simp only [Option.some.injEq, Prod.mk.injEq] at hrun
          obtain ⟨hb, hst⟩ := hrun
          subst hst
          exact ⟨hinv1, fun htrue => by rw [← hb] at htrue; cases htrue⟩
        · rw [if_neg ht] at hrun
          exact ih _ _ b st' hinv1 hrun

/-- C8 (amended): `wait_completion` returns `true` only when the active set
has drained and every completed task's recorded status is success, and it
returns `false` whenever some completed task failed.  (The converse of the
claim's "iff" fails: when the deadline expires in the same polling interval
in which the last task finishes, the method returns `false` even though
every task succeeded — see the counterexample.) -/
theorem c8_wait_completion_spec (st : RunnerState) (selfT timeout : Option Nat)
    (now : Nat) (sched : List WaitStep) (b : Bool) (st' : RunnerState)
    (hinv : runner_inv st)
    (hrun : wait_completion st selfT timeout now sched = some (b, st')) :
    (b = true → st'.active_tasks = []
      ∧ ∀ t ∈ st'.completed_tasks, t.retcode = 0)
    ∧ ((∃ t ∈ st'.completed_tasks, t.retcode ≠ 0) → b = false) := by
  have hinv0 : runner_inv (update_completed st) := update_completed_inv st hinv
  have hspec : runner_inv st' ∧ (b = true → st'.active_tasks = [] ∧ st'.failSim = 0) := by
    unfold wait_completion at hrun
    cases timeout with
    | none => exact wait_loop_spec selfT none false sched _ now b st' hinv0 hrun
    | some t => exact wait_loop_spec selfT (some (now + t)) true sched _ now b st' hinv0 hrun
  obtain ⟨hinv', hb⟩ := hspec
  have hall : b = true → ∀ t ∈ st'.completed_tasks, t.retcode = 0 := by
    intro htrue t ht
    have h0 : st'.completed_tasks.countP (fun t => t.retcode ≠ 0) = 0 := by
      rw [← hinv']; exact (hb htrue).2
    have := List.countP_eq_zero.mp h0 t ht
    simpa using this
  refine ⟨fun htrue => ⟨(hb htrue).1, hall htrue⟩, fun hex => ?_⟩
  by_contra hfalse
  have htrue : b = true := by
    cases b with
    | true => rfl
    | false => exact absurd rfl hfalse
  obtain ⟨t, ht, hrc⟩ := hex
  exact hrc (hall htrue t ht)

/-- Runner state with one already-completed, successful task for the C8
witness. -/
def c8_stW : RunnerState :=
  { active_tasks := [],
    completed_tasks := [⟨1, false, 0, 0, none⟩],
    okSim := 1, failSim := 0, runno := 1 }

/-- C8 witness: the amended theorem applied to a drained, all-successful
runner, whose `wait_completion` returns `true`. -/
theorem c8_witness :
    (runner_inv c8_stW
      ∧ wait_completion c8_stW none none 0 [] = some (true, c8_stW))
    ∧ c8_stW.active_tasks = [] ∧ ∀ t ∈ c8_stW.completed_tasks, t.retcode = 0 := by
  refine ⟨⟨by decide, by decide⟩, ?_⟩
  exact (c8_wait_completion_spec c8_stW none none 0 [] true c8_stW
    (by decide) (by decide)).1 rfl

/-- A runner with one still-active task, used by the C8 counterexample. -/
def c8_stA : RunnerState :=
  { active_tasks := [⟨1, true, -1, 0, none⟩],
    completed_tasks := [], okSim := 0, failSim := 0, runno := 1 }

/-- The final state of the C8 counterexample run: drained, all successful. -/
def c8_stF : RunnerState :=
  { active_tasks := [],
    completed_tasks := [⟨1, false, 0, 0, none⟩],
    okSim := 1, failSim := 0, runno := 1 }

/-- C8 counterexample: the claim states `awaitAll` returns `true` *iff*
every completed task's recorded status is success.  Calling
`wait_completion(timeout=5)` on a runner whose only task finishes
successfully during a 10-unit sleep returns `false` — the fixed deadline
`now + 5` is checked after the poll that also observed the drain — even
though afterwards the active set is empty and every completed task
succeeded.  So "all statuses are success" holds while the result is
`false`, refuting the "iff". -/
theorem c8_counterexample :
    wait_completion c8_stA none (some 5) 0 [⟨10, [(1, 0)]⟩] = some (false, c8_stF)
    ∧ c8_stF.active_tasks = []
    ∧ (∀ t ∈ c8_stF.completed_tasks, t.retcode = 0)
    ∧ runner_inv c8_stA := by
  refine ⟨by decide, by decide, by decide, by decide⟩

/-! ## Claim C3 -/

theorem except_bind_ok {ε α β : Type} (a : α) (f : α → Except ε β) :
    (Except.ok a >>= f : Except ε β) = f a := rfl

theorem except_bind_error {ε α β : Type} (e : ε) (f : α → Except ε β) :
    ((Except.error e : Except ε α) >>= f) = Except.error e := rfl

theorem write_lines_dropLast_line (xs : List Entry) (s l : Chars)
    (h : xs.getLast? = some (.line s)) :
    write_lines (xs.dropLast ++ [.line (s ++ l)]) = write_lines xs ++ l := by
  have hne : xs ≠ [] := by
    intro hnil; rw [hnil] at h; cases h
  have hlast : xs.getLast hne = .line s := by
    rw [List.getLast?_eq_getLast xs hne] at h
    injection h
  have hdecomp : xs.dropLast ++ [Entry.line s] = xs := by
    rw [← hlast]
    exact List.dropLast_append_getLast hne
  calc write_lines (xs.dropLast ++ [.line (s ++ l)])
      = write_lines xs.dropLast ++ (s ++ l) := by
        rw [write_lines_append]; simp [write_lines, write_entry]
    _ = (write_lines xs.dropLast ++ s) ++ l := by simp
    _ = write_lines (xs.dropLast ++ [Entry.line s]) ++ l := by
        rw [write_lines_append]; simp [write_lines, write_entry]
    _ = write_lines xs ++ l := by rw [hdecomp]

/-- Parser invariant: whenever `_add_lines` finishes properly, the text of
the entries it built, followed by the unconsumed lines, is exactly the text
of the starting entries followed by all input lines — i.e. parsing loses or
reorders nothing. -/
theorem add_lines_aux_flatten :
    ∀ (fuel : Nat) (acc : List Entry) (lines : List Chars) (es : List Entry)
      (rest : List Chars),
      add_lines_aux fuel acc lines = .ok (es, true, rest) →
      write_lines es ++ rest.flatten = write_lines acc ++ lines.flatten := by
  intro fuel
  induction fuel with
  | zero => intro acc lines es rest h; cases h
  | succ fuel ih =>
    intro acc lines es rest h
    cases lines with
    | nil =>
      simp only [add_lines_aux] at h
      cases h
    | cons l ls =>
      simp only [add_lines_aux] at h
      rcases hc : get_line_command_str l with e | oc
      · rw [hc] at h; cases h
      · rw [hc] at h
        rw [except_bind_ok] at h
        cases oc with
        | none =>
          dsimp only at h
          cases h
        | some c =>
          dsimp only at h
          by_cases hsub : c = ".SUBCKT".toList
          · rw [if_pos hsub] at h
            rcases hs : add_lines_aux fuel [Entry.line l] ls with e₁ | ⟨subAcc, fin, rest₁⟩
            · rw [hs] at h
              rw [except_bind_error] at h
              cases h
            · rw [hs] at h
              rw [except_bind_ok] at h
              dsimp only at h
              cases fin with
              | true =>
                rw [if_pos rfl] at h
                have houter := ih (acc ++ [Entry.sub subAcc]) rest₁ es rest h
                have hinner := ih [Entry.line l] ls subAcc rest₁ hs
                rw [write_lines_append] at houter
                simp only [write_lines, write_entry] at houter hinner
                simp only [List.flatten_cons]
                rw [houter]
                simp only [List.append_nil] at hinner ⊢
                rw [List.append_assoc, hinner]
              | false =>
                simp only [Bool.false_eq_true, if_false] at h
                cases h
          · rw [if_neg hsub] at h
            by_cases hplus : c = ['+']
            · rw [if_pos hplus] at h
              rcases hl : acc.getLast? with _ | e₂
              · rw [hl] at h; cases h
              · rw [hl] at h
                cases e₂ with
                | sub es₂ => cases h
                | line prev =>
                  have := ih (acc.dropLast ++ [Entry.line (prev ++ l)]) ls es rest h
                  rw [this, write_lines_dropLast_line acc prev l hl]
                  simp
            · rw [if_neg hplus] at h
              by_cases hend : c.take 4 = ".END".toList
              · rw [if_pos hend] at h
                injection h with h'
                injection h' with h1 h2
                injection h2 with h2 h3
                subst h1 h3
                rw [write_lines_append]
                simp [write_lines, write_entry]
              · rw [if_neg hend] at h
                have := ih (acc ++ [Entry.line l]) ls es rest h
                rw [this, write_lines_append]
                simp [write_lines, write_entry]

/-- With no registered clones, serialization is plain flattening. -/
theorem write_netlist_text_no_modified (nl : List Entry) :
    write_netlist_text nl [] = write_lines nl := by
  induction nl with
  | nil => simp [write_netlist_text, write_lines]
  | cons e rest ih =>
    cases e with
    | line l =>
      simp only [write_netlist_text, modified_text, write_lines, write_entry, ih]
      split <;> simp
    | sub es =>
      simp only [write_netlist_text, write_lines, write_entry, ih]

/-- C3: for a well-formed template (its parse closes properly and consumes
every line), `reset_netlist` restores the pristine state — empty clone
table, freshly parsed entries — and a subsequent serialization reproduces
the template byte for byte; in particular no specialized clone text appears
(the table the writer would interleave is empty). -/
theorem c3_reset_write_roundtrip (lines : List Chars) (es : List Entry)
    (h : add_lines lines = .ok (es, true, [])) :
    reset_netlist lines = .ok ⟨es, []⟩
    ∧ write_netlist_text es [] = lines.flatten := by
  constructor
  · rw [reset_netlist, h, except_bind_ok]
    simp
  · have := add_lines_aux_flatten (add_lines_fuel lines) [] lines es [] h
    simp only [write_lines, List.flatten_nil, List.append_nil,
      List.nil_append] at this
    rw [write_netlist_text_no_modified, this]

/-- Template with a nested block and a continuation line, for the C3
witness. -/
def c3_lines : List Chars :=
  ["* a\n", ".SUBCKT S 1 2\n", "R1 1 2 1k\n", ".ENDS S\n", "V1 1 0 5\n",
   "+ AC 1\n", ".end\n"].map String.toList

/-- Parsed entries of `c3_lines` (the continuation line is appended to the
`V1` entry). -/
def c3_entries : List Entry :=
  [.line "* a\n".toList,
   .sub [.line ".SUBCKT S 1 2\n".toList, .line "R1 1 2 1k\n".toList,
         .line ".ENDS S\n".toList],
   .line "V1 1 0 5\n+ AC 1\n".toList, .line ".end\n".toList]

/-- C3 witness: the round-trip law evaluated on `c3_lines`. -/
theorem c3_witness :
    add_lines c3_lines = .ok (c3_entries, true, [])
    ∧ reset_netlist c3_lines = .ok ⟨c3_entries, []⟩
    ∧ write_netlist_text c3_entries [] = c3_lines.flatten := by
  refine ⟨by decide, ?_, ?_⟩
  · exact (c3_reset_write_roundtrip c3_lines c3_entries (by decide)).1
  · exact (c3_reset_write_roundtrip c3_lines c3_entries (by decide)).2

/-! ## Claim C6 -/

/-- Whether an entry is (without error) a unique instruction. -/
def uniqB (e : Entry) : Bool :=
  match is_unique_instruction e with
  | .ok true => true
  | _ => false

/-- Whether an entry's command is recognized (no `SyntaxError`). -/
def lineOkB (e : Entry) : Bool :=
  match is_unique_instruction e with
  | .ok _ => true
  | .error _ => false

/-- Whether every entry's command is recognized. -/
def linesOkB (nl : List Entry) : Bool := nl.all lineOkB

/-- Whether an entry is a directive of kind `K`. -/
def hasCommand (K : Chars) (e : Entry) : Bool :=
  decide (get_line_command e = .ok (some K))

theorem lineOkB_is_unique (e : Entry) (h : lineOkB e = true) :
    is_unique_instruction e = .ok (uniqB e) := by
  unfold lineOkB at h
  unfold uniqB
  rcases he : is_unique_instruction e with _ | b
  · rw [he] at h; cases h
  · cases b <;> rfl

/-- Behaviour of the unique-replace loop: on a netlist whose commands all
parse, it either finds no unique entry and returns the list unchanged, or
replaces the first unique entry in place. -/
theorem replace_first_unique_spec (ins : Chars) :
    ∀ nl : List Entry, linesOkB nl = true →
      (nl.filter uniqB = [] ∧ replace_first_unique ins nl = .ok nl)
      ∨ (∃ pre u post, nl = pre ++ u :: post ∧ pre.filter uniqB = []
          ∧ uniqB u = true
          ∧ replace_first_unique ins nl = .ok (pre ++ .line ins :: post)) := by
  intro nl
  induction nl with
  | nil => intro _; exact Or.inl ⟨rfl, rfl⟩
  | cons e rest ih =>
    intro hok
    have hoke : lineOkB e = true ∧ linesOkB rest = true := by
      simpa [linesOkB] using hok
    have he := lineOkB_is_unique e hoke.1
    cases hu : uniqB e with
    | true =>
      refine Or.inr ⟨[], e, rest, rfl, rfl, hu, ?_⟩
      rw [hu] at he
      simp only [replace_first_unique, he, except_bind_ok, if_pos]
      rfl
    | false =>
      rw [hu] at he
      rcases ih hoke.2 with ⟨hfil, hres⟩ | ⟨pre, u, post, hdec, hpre, huu, hres⟩
      · refine Or.inl ⟨?_, ?_⟩
        · simp [List.filter_cons, hu, hfil]
        · simp only [replace_first_unique, he, except_bind_ok, hu,
            Bool.false_eq_true, if_false, hres, except_bind_ok]
      · refine Or.inr ⟨e :: pre, u, post, by rw [hdec]; rfl, ?_, huu, ?_⟩
        · simp [List.filter_cons, hu, hpre]
        · simp only [replace_first_unique, he, except_bind_ok, hu,
            Bool.false_eq_true, if_false, hres, except_bind_ok]
          rfl

theorem filter_take_nil (p : Entry → Bool) (nl : List Entry)
    (h : nl.filter p = []) (n : Nat) : (nl.take n).filter p = [] :=
  List.sublist_nil.mp (h ▸ (List.take_sublist n nl).filter p)

theorem filter_drop_nil (p : Entry → Bool) (nl : List Entry)
    (h : nl.filter p = []) (n : Nat) : (nl.drop n).filter p = [] :=
  List.sublist_nil.mp (h ▸ (List.drop_sublist n nl).filter p)

theorem filter_of_filter_imp (p q : Entry → Bool)
    (himp : ∀ e, p e = true → q e = true) :
    ∀ l : List Entry, l.filter p = (l.filter q).filter p := by
  intro l
  induction l with
  | nil => rfl
  | cons e rest ih =>
    cases hp : p e with
    | true =>
      have hq := himp e hp
      simp [List.filter_cons, hp, hq, ih]
    | false =>
      cases hq : q e <;> simp [List.filter_cons, hp, hq, ih]

/-- What `add_instruction` does with a unique instruction on a netlist that
holds at most one unique instruction: afterwards the unique instructions
are exactly the new one. -/
theorem add_instruction_unique_spec (nl : List Entry) (instr : Chars)
    (nl' : List Entry)
    (hok : linesOkB nl = true)
    (hlast : instr.getLast? = some '\n')
    (hu : is_unique_instruction (.line instr) = .ok true)
    (hcount : (nl.filter uniqB).length ≤ 1)
    (hrun : add_instruction nl instr = .ok nl') :
    nl'.filter uniqB = [.line instr] ∧ linesOkB nl' = true
      ∧ (nl'.filter uniqB).length ≤ 1 := by
  unfold add_instruction at hrun
  rw [if_pos hlast] at hrun
  dsimp only at hrun
  rw [hu, except_bind_ok] at hrun
  rw [if_pos rfl] at hrun
  have huB : uniqB (.line instr) = true := by
    unfold uniqB; rw [hu]
  rcases replace_first_unique_spec instr nl hok
    with ⟨hfil, hres⟩ | ⟨pre, u, post, hdec, hpre, huu, hres⟩
  · -- no unique instruction present: the text cannot be present either,
    -- so it is inserted before the trailing directive
    rw [hres, except_bind_ok] at hrun
    have hnotmem : ¬((Entry.line instr) ∈ nl) := by
      intro hmem
      have : (Entry.line instr) ∈ nl.filter uniqB := List.mem_filter.mpr ⟨hmem, huB⟩
      rw [hfil] at this
      cases this
    rw [if_neg hnotmem] at hrun
    injection hrun with hrun
    subst hrun
    unfold py_insert
    constructor
    · rw [List.filter_append, List.filter_append, filter_take_nil uniqB nl hfil,
        filter_drop_nil uniqB nl hfil]
      simp [List.filter_cons, huB]
    · constructor
      · simp only [linesOkB, List.all_append, Bool.and_eq_true, List.all_eq_true]
        simp only [linesOkB, List.all_eq_true] at hok
        refine ⟨⟨fun e hm => hok e (List.mem_of_mem_take hm), ?_⟩,
          fun e hm => hok e (List.mem_of_mem_drop hm)⟩
        intro e hm
        have : e = Entry.line instr := by simpa using hm
        subst this
        unfold lineOkB
        rw [hu]
      · rw [List.filter_append, List.filter_append,
          filter_take_nil uniqB nl hfil, filter_drop_nil uniqB nl hfil]
        simp [List.filter_cons, huB]
  · -- a unique instruction was replaced in place; the new text is a member,
    -- so no further insertion happens
    rw [hres, except_bind_ok] at hrun
    have hmem : (Entry.line instr) ∈ pre ++ Entry.line instr :: post := by
      simp
    rw [if_pos hmem] at hrun
    injection hrun with hrun
    subst hrun
    have hfn : nl.filter uniqB = pre.filter uniqB ++ u :: post.filter uniqB := by
      rw [hdec, List.filter_append, List.filter_cons]
      simp [huu]
    have hpost : post.filter uniqB = [] := by
      rw [hfn, hpre] at hcount
      simp only [List.nil_append, List.length_cons] at hcount
      exact List.length_eq_zero.mp (by omega)
    constructor
    · rw [List.filter_append, List.filter_cons]
      simp [hpre, huB, hpost]
    · constructor
      · simp only [linesOkB, List.all_append, List.all_cons, Bool.and_eq_true,
          List.all_eq_true]
        simp only [linesOkB, List.all_eq_true] at hok
        subst hdec
        refine ⟨fun e hm => hok e (List.mem_append_left _ hm), ?_,
          fun e hm => hok e (List.mem_append_right _ (List.mem_cons_of_mem _ hm))⟩
        unfold lineOkB
        rw [hu]
      · rw [List.filter_append, List.filter_cons]
        simp [hpre, huB, hpost]

/-- C6: adding a unique-kind directive twice (with texts `A` then `B` of the
same unique kind `K`) to a document whose commands all parse and which
respects the documented at-most-one-unique invariant leaves exactly one
directive of kind `K` — the second text.  (The replace loop matches *any*
unique kind, which on such documents still yields exactly one `K`-directive
holding `B`.) -/
theorem c6_unique_directive_twice (nl nl1 nl2 : List Entry) (A B K : Chars)
    (hok : linesOkB nl = true)
    (hcount : (nl.filter uniqB).length ≤ 1)
    (hlastA : A.getLast? = some '\n')
    (hlastB : B.getLast? = some '\n')
    (huA : is_unique_instruction (.line A) = .ok true)
    (huB : is_unique_instruction (.line B) = .ok true)
    (hkindB : get_line_command (.line B) = .ok (some K))
    (h1 : add_instruction nl A = .ok nl1)
    (h2 : add_instruction nl1 B = .ok nl2) :
    nl2.filter (hasCommand K) = [.line B] := by
  obtain ⟨hfA, hokA, hcA⟩ :=
    add_instruction_unique_spec nl A nl1 hok hlastA huA hcount h1
  obtain ⟨hfB, _, _⟩ :=
    add_instruction_unique_spec nl1 B nl2 hokA hlastB huB hcA h2
  have himp : ∀ e, hasCommand K e = true → uniqB e = true := by
    intro e he
    unfold hasCommand at he
    have hcmd : get_line_command e = .ok (some K) := of_decide_eq_true he
    have hKuniq : K ∈ UNIQUE_SIMULATION_DOT_INSTRUCTIONS := by
      have : is_unique_instruction (.line B) = .ok true := huB
      unfold is_unique_instruction at this
      rw [hkindB, except_bind_ok] at this
      by_cases hK : K ∈ UNIQUE_SIMULATION_DOT_INSTRUCTIONS
      · exact hK
      · simp [hK] at this
    unfold uniqB is_unique_instruction
    rw [hcmd, except_bind_ok]
    simp [hKuniq]
  rw [filter_of_filter_imp (hasCommand K) uniqB himp nl2, hfB]
  have : hasCommand K (.line B) = true := by
    unfold hasCommand
    simp [hkindB]
  simp [List.filter_cons, this]

/-- Netlist after adding `.tran 1m` to the example document. -/
def c6_nl1 : List Entry :=
  (add_instruction exNetlist ".tran 1m\n".toList).toOption.getD []

/-- Netlist after further adding `.tran 5m`. -/
def c6_nl2 : List Entry :=
  (add_instruction c6_nl1 ".tran 5m\n".toList).toOption.getD []

/-- C6 witness: adding `.tran 1m` then `.tran 5m` to the example document
leaves exactly one `.TRAN` directive, with the second text. -/
theorem c6_witness :
    (linesOkB exNetlist = true
      ∧ (exNetlist.filter uniqB).length ≤ 1
      ∧ is_unique_instruction (.line ".tran 1m\n".toList) = .ok true
      ∧ is_unique_instruction (.line ".tran 5m\n".toList) = .ok true
      ∧ get_line_command (.line ".tran 5m\n".toList) = .ok (some ".TRAN".toList)
      ∧ add_instruction exNetlist ".tran 1m\n".toList = .ok c6_nl1
      ∧ add_instruction c6_nl1 ".tran 5m\n".toList = .ok c6_nl2)
    ∧ c6_nl2.filter (hasCommand ".TRAN".toList) = [.line ".tran 5m\n".toList] := by
  refine ⟨⟨by decide, by decide, by decide, by decide, by decide, by decide,
    by decide⟩, ?_⟩
  exact c6_unique_directive_twice exNetlist c6_nl1 c6_nl2
    ".tran 1m\n".toList ".tran 5m\n".toList ".TRAN".toList
    (by decide) (by decide) (by decide) (by decide) (by decide) (by decide)
    (by decide) (by decide) (by decide)

/-! ## Shared lemmas about `_get_line_starting_with` -/

/-- Whether an entry is a line whose first token equals the upper-cased
designator (what `_get_line_starting_with` matches). -/
def tokMatch (d : Chars) (e : Entry) : Bool :=
  match e with
  | .line l => first_token_upped l = d.map Char.toUpper
  | .sub _ => false

theorem glsw_aux_none (d : Chars) :
    ∀ (nl : List Entry) (k : Nat), nl.countP (tokMatch d) = 0 →
      get_line_starting_with_aux d k nl = .error .componentNotFound := by
  intro nl
  induction nl with
  | nil => intro k _; rfl
  | cons e rest ih =>
    intro k hcount
    rw [List.countP_cons] at hcount
    have he : tokMatch d e = false := by
      cases h : tokMatch d e
      · rfl
      · rw [h] at hcount; simp at hcount
    have hrest : rest.countP (tokMatch d) = 0 := by
      rw [he] at hcount; simpa using hcount
    cases e with
    | sub es => simpa [get_line_starting_with_aux] using ih (k+1) hrest
    | line l =>
      have : ¬(first_token_upped l = d.map Char.toUpper) := by
        simpa [tokMatch] using he
      simpa [get_line_starting_with_aux, this] using ih (k+1) hrest

theorem glsw_aux_first (d : Chars) (L : Chars)
    (hL : first_token_upped L = d.map Char.toUpper) :
    ∀ (pre post : List Entry) (k : Nat), pre.countP (tokMatch d) = 0 →
      get_line_starting_with_aux d k (pre ++ .line L :: post)
        = .ok (k + pre.length, L) := by
  intro pre
  induction pre with
  | nil =>
    intro post k _
    simp [get_line_starting_with_aux, hL]
  | cons e rest ih =>
    intro post k hcount
    rw [List.countP_cons] at hcount
    have he : tokMatch d e = false := by
      cases h : tokMatch d e
      · rfl
      · rw [h] at hcount; simp at hcount
    have hrest : rest.countP (tokMatch d) = 0 := by
      rw [he] at hcount; simpa using hcount
    cases e with
    | sub es =>
      rw [List.cons_append]
      simp only [get_line_starting_with_aux]
      rw [ih post (k+1) hrest]
      simp [List.length_cons]
      omega
    | line l =>
      have hne : ¬(first_token_upped l = d.map Char.toUpper) := by
        simpa [tokMatch] using he
      rw [List.cons_append]
      simp only [get_line_starting_with_aux, hne, if_neg, if_false]
      rw [ih post (k+1) hrest]
      simp [List.length_cons]
      omega

theorem glsw_aux_ok_decompose (d : Chars) :
    ∀ (nl : List Entry) (k i : Nat) (L : Chars),
      get_line_starting_with_aux d k nl = .ok (i, L) →
      ∃ pre post, nl = pre ++ .line L :: post ∧ i = k + pre.length
        ∧ pre.countP (tokMatch d) = 0
        ∧ first_token_upped L = d.map Char.toUpper := by
  intro nl
  induction nl with
  | nil => intro k i L h; cases h
  | cons e rest ih =>
    intro k i L h
    cases e with
    | sub es =>
      simp only [get_line_starting_with_aux] at h
      obtain ⟨pre, post, hdec, hi, hc, hL⟩ := ih (k+1) i L h
      exact ⟨.sub es :: pre, post, by rw [hdec]; rfl,
        by rw [hi, List.length_cons]; omega,
        by simpa [List.countP_cons, tokMatch] using hc, hL⟩
    | line l =>
      simp only [get_line_starting_with_aux] at h
      by_cases hl : first_token_upped l = d.map Char.toUpper
      · rw [if_pos hl] at h
        injection h with h'
        injection h' with h1 h2
        subst h2
        exact ⟨[], rest, rfl, by simpa using h1.symm, by simp, hl⟩
      · rw [if_neg hl] at h
        obtain ⟨pre, post, hdec, hi, hc, hL⟩ := ih (k+1) i L h
        refine ⟨.line l :: pre, post, by rw [hdec]; rfl,
          by rw [hi, List.length_cons]; omega, ?_, hL⟩
        simpa [List.countP_cons, tokMatch, hl] using hc

/-- `list.set` at the junction point of a decomposition. -/
theorem set_at_append_length {α : Type} (pre : List α) (x y : α)
    (post : List α) : (pre ++ x :: post).set pre.length y = pre ++ y :: post := by
  induction pre with
  | nil => rfl
  | cons e rest ih => simp [List.set, ih]

/-! ## Claim C10 -/

/-- C10 (amended): `remove_component` blanks the entry — replaces it by the
empty string — so the entry count and every other entry are unchanged, and a
later `getComponentValue`/`setComponentValue` on the same designator fails
with `ComponentNotFound` (the designator occurred exactly once).  Unlike the
claim's serialization clause, the blank entry contributes *nothing* to the
artifact (the component's line disappears; no empty line takes its place) —
see the counterexample. -/
theorem c10_remove_component_blanks (nl : List Entry) (d v : Chars)
    (pfx : Char) (pat : Pattern) (i : Nat) (L : Chars)
    (hhead : d.head? = some pfx)
    (hpat : component_replace_regexs pfx = some pat)
    (hfind : get_line_starting_with nl d = .ok (i, L))
    (hcount : nl.countP (tokMatch d) = 1) :
    remove_component nl d = .ok (nl.set i (.line []))
    ∧ (nl.set i (.line [])).length = nl.length
    ∧ (∀ j, j ≠ i → (nl.set i (.line []))[j]? = nl[j]?)
    ∧ get_component_value (nl.set i (.line [])) d = .error .componentNotFound
    ∧ set_model_and_value (nl.set i (.line [])) d v
        = .error .componentNotFound := by
  obtain ⟨pre, post, hdec, hi, hpre, hL⟩ :=
    glsw_aux_ok_decompose d nl 0 i L hfind
  rw [Nat.zero_add] at hi
  have hdnil : d ≠ [] := by
    intro hd; rw [hd] at hhead; cases hhead
  have hmapne : d.map Char.toUpper ≠ [] := by
    simpa using hdnil
  have hpost : post.countP (tokMatch d) = 0 := by
    rw [hdec, List.countP_append, List.countP_cons] at hcount
    rw [hpre] at hcount
    have : tokMatch d (Entry.line L) = true := by simpa [tokMatch] using hL
    rw [this] at hcount
    simpa using hcount
  have hset : nl.set i (.line []) = pre ++ .line [] :: post := by
    rw [hdec, hi, set_at_append_length]
  have hblank : tokMatch d (Entry.line []) = false := by
    cases hdm : d.map Char.toUpper with
    | nil => exact absurd hdm hmapne
    | cons c cs => simp [tokMatch, first_token_upped, hdm]
  have hcount' : (nl.set i (.line [])).countP (tokMatch d) = 0 := by
    rw [hset, List.countP_append, List.countP_cons, hpre, hpost, hblank]
    rfl
  have hfind' : get_line_starting_with (nl.set i (.line [])) d
      = .error .componentNotFound := glsw_aux_none d _ 0 hcount'
  refine ⟨?_, List.length_set .., fun j hj => List.getElem?_set_ne (fun h => hj h.symm), ?_, ?_⟩
  · unfold remove_component
    rw [hfind, except_bind_ok]
  · unfold get_component_value get_component_info
    rw [hhead]
    dsimp only
    rw [hpat]
    dsimp only
    rw [hfind', except_bind_error]
    rfl
  · unfold set_model_and_value
    rw [hhead]
    dsimp only
    rw [hpat]
    dsimp only
    rw [hfind', except_bind_error]

/-- C10 counterexample: the claim states the serialized artifact contains an
empty line where the component was.  Removing `R5` from the example document
blanks its entry, but writing the document yields the remaining lines with
*no* empty line in between — the empty entry contributes zero bytes, so the
claimed output (with an empty line at the former position) differs from the
actual output. -/
theorem c10_counterexample :
    remove_component exNetlist "R5".toList
      = .ok (exNetlist.set 4 (.line []))
    ∧ write_netlist_text (exNetlist.set 4 (.line [])) []
      = ("* test\n.SUBCKT SUB 1 2\nR1 1 2 2k\n.ENDS SUB\nX1 a b SUB\nX2 a b SUB\n"
        ++ "V1 1 0 5\n.backanno\n.end\n").toList
    ∧ write_netlist_text (exNetlist.set 4 (.line [])) []
      ≠ ("* test\n.SUBCKT SUB 1 2\nR1 1 2 2k\n.ENDS SUB\nX1 a b SUB\nX2 a b SUB\n"
        ++ "\nV1 1 0 5\n.backanno\n.end\n").toList := by
  refine ⟨by decide, by decide, by decide⟩

/-- C10 witness: the amended theorem applied to `R5` in the example
document. -/
theorem c10_witness :
    ("R5".toList.head? = some 'R'
      ∧ get_line_starting_with exNetlist "R5".toList = .ok (4, "R5 1 0 2k\n".toList)
      ∧ exNetlist.countP (tokMatch "R5".toList) = 1)
    ∧ remove_component exNetlist "R5".toList = .ok (exNetlist.set 4 (.line []))
    ∧ get_component_value (exNetlist.set 4 (.line [])) "R5".toList
      = .error .componentNotFound
    ∧ set_model_and_value (exNetlist.set 4 (.line [])) "R5".toList "1k".toList
      = .error .componentNotFound := by
  refine ⟨⟨by decide, by decide, by decide⟩, ?_, ?_, ?_⟩
  · exact (c10_remove_component_blanks exNetlist "R5".toList "1k".toList 'R' patR
      4 "R5 1 0 2k\n".toList (by decide) rfl (by decide) (by decide)).1
  · exact (c10_remove_component_blanks exNetlist "R5".toList "1k".toList 'R' patR
      4 "R5 1 0 2k\n".toList (by decide) rfl (by decide) (by decide)).2.2.2.1
  · exact (c10_remove_component_blanks exNetlist "R5".toList "1k".toList 'R' patR
      4 "R5 1 0 2k\n".toList (by decide) rfl (by decide) (by decide)).2.2.2.2

/-! ## Claim C4 -/

/-- Netlist after setting `R5` to the non-grammatical value `blah`. -/
def c4_nlBlah : List Entry :=
  (set_model_and_value exNetlist "R5".toList "blah".toList).toOption.getD []

/-- C4 counterexample: the claim states that for every component whose line
matches its pattern, `setComponentValue` then `getComponentValue` returns
the new value.  Setting `R5` (line `R5 1 0 2k`) to the string `blah`
succeeds — the value span is replaced verbatim, producing `R5 1 0 blah` —
but `getComponentValue` then raises `UnrecognizedSyntaxError`, because the
edited line no longer matches the resistor pattern; no value is returned at
all. -/
theorem c4_counterexample :
    set_model_and_value exNetlist "R5".toList "blah".toList = .ok c4_nlBlah
    ∧ c4_nlBlah = exNetlist.set 4 (.line "R5 1 0 blah\n".toList)
    ∧ get_component_value c4_nlBlah "R5".toList = .error .unrecognizedSyntax := by
  refine ⟨by decide, by decide, by decide⟩

/-- C4 (amended): `setComponentValue` replaces exactly the matched value
span; `getComponentValue` afterwards returns the new value *provided* the
edited line still matches the element's pattern with its value group
spanning exactly the inserted text — which holds for numeric values
formatted by the engineering notation and for plain value tokens, but can
fail for arbitrary strings (see the counterexample).  The leading token is
unchanged by a value-span edit, so the same line is found again. -/
theorem c4_set_then_get (nl : List Entry) (d v : Chars) (pfx : Char)
    (pat : Pattern) (i : Nat) (L : Chars) (m m' : MatchRes) (s e s' e' : Nat)
    (hhead : d.head? = some pfx)
    (hpat : component_replace_regexs pfx = some pat)
    (hfind : get_line_starting_with nl d = .ok (i, L))
    (hm : patMatch pat L = some m)
    (hspan : groupSpan pat m "value" = some (s, e))
    (htok : first_token_upped (L.take s ++ v ++ L.drop e) = first_token_upped L)
    (hm' : patMatch pat (L.take s ++ v ++ L.drop e) = some m')
    (hspan' : groupSpan pat m' "value" = some (s', e'))
    (hval : ((L.take s ++ v ++ L.drop e).take e').drop s' = v) :
    set_model_and_value nl d v
      = .ok (nl.set i (.line (L.take s ++ v ++ L.drop e)))
    ∧ get_component_value (nl.set i (.line (L.take s ++ v ++ L.drop e))) d
      = .ok v := by
  obtain ⟨pre, post, hdec, hi, hpre, hL⟩ :=
    glsw_aux_ok_decompose d nl 0 i L hfind
  rw [Nat.zero_add] at hi
  have hset : nl.set i (.line (L.take s ++ v ++ L.drop e))
      = pre ++ .line (L.take s ++ v ++ L.drop e) :: post := by
    rw [hdec, hi, set_at_append_length]
  have hfind' : get_line_starting_with
      (nl.set i (.line (L.take s ++ v ++ L.drop e))) d
      = .ok (i, L.take s ++ v ++ L.drop e) := by
    rw [hset]
    unfold get_line_starting_with
    rw [glsw_aux_first d _ (htok.trans hL) pre post 0 hpre, Nat.zero_add, hi]
  constructor
  · unfold set_model_and_value
    rw [hhead]
    dsimp only
    rw [hpat]
    dsimp only
    rw [hfind, except_bind_ok]
    dsimp only
    rw [hm]
    dsimp only
    rw [hspan]
  · unfold get_component_value get_component_info
    rw [hhead]
    dsimp only
    rw [hpat]
    dsimp only
    rw [hfind', except_bind_ok]
    dsimp only
    rw [hm']
    dsimp only
    unfold groupStr
    rw [hspan']
    dsimp only
    rw [hval]
    rfl

/-- C4 witness: setting `R5` from `2k` to `4k` and reading it back. -/
theorem c4_witness :
    ("R5".toList.head? = some 'R'
      ∧ get_line_starting_with exNetlist "R5".toList = .ok (4, "R5 1 0 2k\n".toList)
      ∧ (patMatch patR "R5 1 0 2k\n".toList).isSome = true
      ∧ (patMatch patR "R5 1 0 4k\n".toList).isSome = true)
    ∧ set_model_and_value exNetlist "R5".toList "4k".toList
      = .ok (exNetlist.set 4 (.line "R5 1 0 4k\n".toList))
    ∧ get_component_value (exNetlist.set 4 (.line "R5 1 0 4k\n".toList)) "R5".toList
      = .ok "4k".toList := by
  have hmain := c4_set_then_get exNetlist "R5".toList "4k".toList 'R' patR
    4 "R5 1 0 2k\n".toList
    ((patMatch patR "R5 1 0 2k\n".toList).getD ⟨0, []⟩)
    ((patMatch patR "R5 1 0 4k\n".toList).getD ⟨0, []⟩)
    7 9 7 9
    (by decide) rfl (by decide) (by decide) (by decide) (by decide)
    (by decide) (by decide) (by decide)
  exact ⟨⟨by decide, by decide, by decide, by decide⟩, hmain.1, hmain.2⟩

/-! ## Claim C1 -/

/-- Observation used for the sibling-preservation property: resolve the
sub-circuit definition a (possibly nested) instance path refers to, then
read a component value inside it.  It depends only on the document's
netlist, never on the clone table. -/
def path_value (st : EditorState) (inst comp : Chars) : Except Err Chars := do
  let sub ← get_subckt (get_subckt_fuel inst) st.netlist inst
  get_component_value sub comp

theorem getElem_at_append_length {α : Type} (pre : List α) (x : α)
    (post : List α) : (pre ++ x :: post)[pre.length]? = some x := by
  induction pre with
  | nil => simp
  | cons e rest ih => simpa using ih

theorem glsw_aux_set_preserve (q L L' : Chars)
    (htok : first_token_upped L' = first_token_upped L)
    (hne : first_token_upped L ≠ q.map Char.toUpper) :
    ∀ (nl : List Entry) (k i : Nat), nl[i]? = some (.line L) →
      get_line_starting_with_aux q k (nl.set i (.line L'))
        = get_line_starting_with_aux q k nl := by
  intro nl
  induction nl with
  | nil => intro k i h; simp at h
  | cons e rest ih =>
    intro k i h
    cases i with
    | zero =>
      have he : e = .line L := by simpa using h
      subst he
      rw [List.set_cons_zero]
      simp only [get_line_starting_with_aux]
      rw [if_neg (htok ▸ hne), if_neg hne]
    | succ i' =>
      have h' : rest[i']? = some (.line L) := by simpa using h
      rw [List.set_cons_succ]
      cases e with
      | sub es =>
        simp only [get_line_starting_with_aux]
        exact ih (k+1) i' h'
      | line l =>
        simp only [get_line_starting_with_aux]
        by_cases hl : first_token_upped l = q.map Char.toUpper
        · rw [if_pos hl, if_pos hl]
        · rw [if_neg hl, if_neg hl]
          exact ih (k+1) i' h'

theorem find_subckt_entry_set_line (L' : Chars) :
    ∀ (nl : List Entry) (i : Nat) (L : Chars), nl[i]? = some (.line L) →
      ∀ target, find_subckt_entry target (nl.set i (.line L'))
        = find_subckt_entry target nl := by
  intro nl
  induction nl with
  | nil => intro i L h; simp at h
  | cons e rest ih =>
    intro i L h target
    cases i with
    | zero =>
      have he : e = .line L := by simpa using h
      subst he
      rw [List.set_cons_zero]
      simp only [find_subckt_entry]
    | succ i' =>
      have h' : rest[i']? = some (.line L) := by simpa using h
      rw [List.set_cons_succ]
      cases e with
      | sub es =>
        simp only [find_subckt_entry]
        rw [ih i' L h' target]
      | line l =>
        simp only [find_subckt_entry]
        exact ih i' L h' target

theorem takeWhile_eq_self_of_dropWhile_nil (p : Char → Bool) :
    ∀ q : Chars, q.dropWhile p = [] → q.takeWhile p = q := by
  intro q
  induction q with
  | nil => intro _; rfl
  | cons a tl ih =>
    intro h
    cases hpa : p a with
    | false => simp [List.dropWhile_cons, hpa] at h
    | true =>
      simp only [List.dropWhile_cons, hpa] at h
      simp [List.takeWhile_cons, hpa, ih h]

theorem split_first_colon_fst (q : Chars) :
    (split_first_colon q).1 = q.takeWhile (· ≠ ':') := by
  unfold split_first_colon
  rcases hdw : q.dropWhile (· ≠ ':') with _ | ⟨a, tl⟩
  · dsimp only
    exact (takeWhile_eq_self_of_dropWhile_nil _ q hdw).symm
  · dsimp only

/-- Replacing one line of the netlist by another line with the same leading
token does not change how `_get_subckt` resolves any instance path whose
first segment differs from that token: the same instance line is found, the
same definition entry (a nested node, untouched by the replacement) is
returned. -/
theorem get_subckt_set_line (fuel : Nat) (nl : List Entry) (i : Nat)
    (L L' q : Chars)
    (hget : nl[i]? = some (.line L))
    (htok : first_token_upped L' = first_token_upped L)
    (hne : first_token_upped L ≠ (q.takeWhile (· ≠ ':')).map Char.toUpper) :
    get_subckt fuel (nl.set i (.line L')) q = get_subckt fuel nl q := by
  cases fuel with
  | zero => rfl
  | succ f =>
    unfold get_subckt
    rcases hsp : split_first_colon q with ⟨ref, restPath⟩
    have href : ref = q.takeWhile (· ≠ ':') := by
      have h1 := split_first_colon_fst q
      rw [hsp] at h1
      exact h1
    dsimp only
    have hglsw : get_line_starting_with (nl.set i (.line L')) ref
        = get_line_starting_with nl ref := by
      unfold get_line_starting_with
      exact glsw_aux_set_preserve ref L L' htok (by rw [href]; exact hne) nl 0 i hget
    rw [hglsw]
    simp only [find_subckt_entry_set_line L' nl i L hget]

theorem split_all_colon_no_colon : ∀ c : Chars, ':' ∉ c →
    split_all_colon c = [c] := by
  intro c
  induction c with
  | nil => intro _; rfl
  | cons a tl ih =>
    intro h
    have ha : ¬(a = ':') := fun hc => h (hc ▸ List.mem_cons_self a tl)
    have htl : ':' ∉ tl := fun hc => h (List.mem_cons_of_mem a hc)
    simp only [split_all_colon, ha, if_false, ih htl]

theorem split_all_colon_pair (p c : Chars) (hp : ':' ∉ p) (hc : ':' ∉ c) :
    split_all_colon (p ++ ':' :: c) = [p, c] := by
  induction p with
  | nil =>
    simp [List.nil_append, split_all_colon, split_all_colon_no_colon c hc]
  | cons a tl ih =>
    have ha : ¬(a = ':') := fun h => hp (h ▸ List.mem_cons_self a tl)
    have htl : ':' ∉ tl := fun h => hp (List.mem_cons_of_mem a h)
    rw [List.cons_append]
    simp only [split_all_colon, ha, if_false, ih htl]

theorem join_colon_single (p : Chars) : join_colon [p] = p := by
  simp [join_colon, List.intercalate]

theorem join_underscore_single (p : Chars) : join_underscore [p] = p := by
  simp [join_underscore, List.intercalate]

theorem head?_append_of_some {α : Type} (p r : List α) (x : α)
    (h : p.head? = some x) : (p ++ r).head? = some x := by
  cases p with
  | nil => cases h
  | cons a tl => simpa using h

/-- The sibling-preservation core: the observation `path_value` is
insensitive to replacing one instance line with another line carrying the
same leading token (and to anything in the clone table), provided the
observed path starts at a different instance. -/
theorem path_value_set_line (st : EditorState) (i : Nat) (L L' q c2 : Chars)
    (M : List (Chars × List Entry))
    (hget : st.netlist[i]? = some (.line L))
    (htok : first_token_upped L' = first_token_upped L)
    (hne : first_token_upped L ≠ (q.takeWhile (· ≠ ':')).map Char.toUpper) :
    path_value ⟨st.netlist.set i (.line L'), M⟩ q c2 = path_value st q c2 := by
  unfold path_value
  dsimp only
  rw [get_subckt_set_line (get_subckt_fuel q) st.netlist i L L' q hget htok hne]

/-- C1 as amended: for a SINGLE-SEGMENT instantiation path `p` (edit
designator `p:c`, with `p` an `X`-instance name, no `:` inside `p`), a
first field edit specializes only that instance: the shared definition
`orig` that `p` resolves to is cloned under the new name
`name(orig) ++ '_' ++ p`, the edited clone is registered in the clone table
under the key `p`, and the calling instance line (entry `i`) is rewritten so
that its sub-circuit-name field holds the clone's name — no other netlist
entry changes.  Consequently any observation through a different instance —
any path `q` whose first segment differs from `p` — is unchanged: the
sibling still resolves the original shared definition and reads the same
value.  The original claim's quantification over arbitrary multi-segment
paths is refuted separately: after a deeper edit the rewritten top instance
line names a clone whose definition exists only in the clone table, and
`_get_subckt` resolves through the netlist alone, so reading a
same-first-segment sibling fails. -/
theorem c1_specialize_only_instance (st : EditorState) (p c v : Chars)
    (i : Nat) (L : Chars) (m : MatchRes) (s e : Nat)
    (orig : List Entry) (nm : Chars) (cl cl2 : List Entry)
    (hmod : st.modified_subcircuits = [])
    (hpX : p.head? = some 'X')
    (hpc : ':' ∉ p) (hcc : ':' ∉ c)
    (hfind : get_line_starting_with st.netlist p = .ok (i, L))
    (hsub : get_subckt (get_subckt_fuel p) st.netlist p = .ok orig)
    (hname : nameOf orig = .ok nm)
    (hclone : clone_fn orig (some (nm ++ ['_'] ++ p)) = .ok cl)
    (hm : patMatch patX L = some m)
    (hspan : groupSpan patX m "value" = some (s, e))
    (hedit : set_model_and_value cl c v = .ok cl2)
    (htok : first_token_upped (L.take s ++ (nm ++ ['_'] ++ p) ++ L.drop e)
      = first_token_upped L) :
    editor_set_model_and_value st (p ++ ':' :: c) v
      = .ok ⟨st.netlist.set i (.line (L.take s ++ (nm ++ ['_'] ++ p) ++ L.drop e)),
             [(p, cl2)]⟩
    ∧ ∀ q c2, (q.takeWhile (· ≠ ':')).map Char.toUpper ≠ p.map Char.toUpper →
        path_value ⟨st.netlist.set i
            (.line (L.take s ++ (nm ++ ['_'] ++ p) ++ L.drop e)), [(p, cl2)]⟩ q c2
          = path_value st q c2 := by
  constructor
  · have hheadD : (p ++ ':' :: c).head? = some 'X' :=
      head?_append_of_some p _ 'X' hpX
    have hmem : ':' ∈ p ++ ':' :: c :=
      List.mem_append_right p (List.mem_cons_self ':' c)
    have hlen : (p ++ ':' :: c).length + 1 = (p.length + c.length + 1) + 1 := by
      simp [List.length_append]
      omega
    have hx : component_replace_regexs 'X' = some patX := rfl
    have hsm : set_model_and_value st.netlist p (nm ++ ['_'] ++ p)
        = .ok (st.netlist.set i
            (.line (L.take s ++ (nm ++ ['_'] ++ p) ++ L.drop e))) := by
      unfold set_model_and_value
      rw [hpX]
      dsimp only
      rw [hx]
      dsimp only
      rw [hfind, except_bind_ok]
      dsimp only
      rw [hm]
      dsimp only
      rw [hspan]
    unfold editor_set_model_and_value
    rw [hlen]
    unfold editor_set_aux
    rw [hheadD]
    dsimp only
    rw [if_pos ⟨rfl, hmem⟩, split_all_colon_pair p c hpc hcc]
    simp only [List.dropLast, List.getLast?, List.getLast, Option.getD]
    rw [join_colon_single, hmod]
    dsimp only [alookup]
    rw [hsub, except_bind_ok, hname, except_bind_ok]
    rw [join_underscore_single]
    rw [hclone, except_bind_ok]
    unfold editor_set_aux
    rw [hpX]
    try dsimp only
    rw [if_neg (fun h => hpc h.2)]
    rw [hsm, except_bind_ok]
    try dsimp only
    rw [hedit, except_bind_ok]
    simp [aset]
    rw [except_bind_ok]
  · intro q c2 hne
    obtain ⟨pre, post, hdec, hi, hpre, hL⟩ :=
      glsw_aux_ok_decompose p st.netlist 0 i L hfind
    rw [Nat.zero_add] at hi
    have hget : st.netlist[i]? = some (.line L) := by
      rw [hdec, hi]
      exact getElem_at_append_length pre _ post
    exact path_value_set_line st i L _ q c2 [(p, cl2)] hget htok
      (by rw [hL]; exact fun h => hne h.symm)

/-- The shared definition `X1` resolves to in the example document. -/
def c1_orig : List Entry :=
  (get_subckt 3 exNetlist "X1".toList).toOption.getD []

/-- Its clone under the synthesized name `SUB_X1`. -/
def c1_cl : List Entry :=
  (clone_fn c1_orig (some "SUB_X1".toList)).toOption.getD []

/-- The clone after the field edit `R1 := 4k`. -/
def c1_cl2 : List Entry :=
  (set_model_and_value c1_cl "R1".toList "4k".toList).toOption.getD []

/-- C1 witness: editing `X1:R1` in the example document (two instances `X1`
and `X2` of the shared `SUB`) registers the edited clone under the key
`X1`, rewrites only the `X1` instance line to `SUB_X1`, leaves the sibling
observation through `X2` unchanged at `2k`, and the clone itself carries
the new value `4k`. -/
theorem c1_witness :
    (get_line_starting_with exNetlist "X1".toList
        = .ok (2, "X1 a b SUB\n".toList)
      ∧ get_subckt 3 exNetlist "X1".toList = .ok c1_orig
      ∧ nameOf c1_orig = .ok "SUB".toList
      ∧ clone_fn c1_orig (some "SUB_X1".toList) = .ok c1_cl
      ∧ set_model_and_value c1_cl "R1".toList "4k".toList = .ok c1_cl2)
    ∧ editor_set_model_and_value exState "X1:R1".toList "4k".toList
      = .ok ⟨exNetlist.set 2 (.line "X1 a b SUB_X1\n".toList),
             [("X1".toList, c1_cl2)]⟩
    ∧ path_value ⟨exNetlist.set 2 (.line "X1 a b SUB_X1\n".toList),
        [("X1".toList, c1_cl2)]⟩ "X2".toList "R1".toList
      = path_value exState "X2".toList "R1".toList
    ∧ path_value exState "X2".toList "R1".toList = .ok "2k".toList
    ∧ get_component_value c1_cl2 "R1".toList = .ok "4k".toList := by
  have hmain := c1_specialize_only_instance exState "X1".toList "R1".toList
    "4k".toList 2 "X1 a b SUB\n".toList
    ((patMatch patX "X1 a b SUB\n".toList).getD ⟨0, []⟩) 7 10
    c1_orig "SUB".toList c1_cl c1_cl2
    rfl (by decide) (by decide) (by decide) (by decide) (by decide)
    (by decide) (by decide) (by decide) (by decide) (by decide) (by decide)
  exact ⟨⟨by decide, by decide, by decide, by decide, by decide⟩,
    hmain.1, hmain.2 "X2".toList "R1".toList (by decide), by decide, by decide⟩

/-- A two-level document: the shared definition `SUB` nests a second shared
definition `SUB2` and instantiates it twice (`X2`, `X4`); the top level
instantiates `SUB` twice (`X1`, `X3`). -/
def c1x_netlist : List Entry :=
  [.line "* test\n".toList,
   .sub [.line ".SUBCKT SUB a b\n".toList,
         .sub [.line ".SUBCKT SUB2 1 2\n".toList,
               .line "R1 1 2 2k\n".toList,
               .line ".ENDS SUB2\n".toList],
         .line "X2 a b SUB2\n".toList,
         .line "X4 a b SUB2\n".toList,
         .line ".ENDS SUB\n".toList],
   .line "X1 p q SUB\n".toList,
   .line "X3 p q SUB\n".toList,
   .line ".end\n".toList]

/-- The two-level document's editor state before any edit. -/
def c1x_state : EditorState := { netlist := c1x_netlist, modified_subcircuits := [] }

/-- The editor state after the multi-level edit `X1:X2:R1 := 4k`. -/
def c1x_after : EditorState :=
  (editor_set_model_and_value c1x_state "X1:X2:R1".toList
    "4k".toList).toOption.getD c1x_state

/-- C1 counterexample, refuting the claim's quantification over every
multi-segment instantiation path: the edit at path `X1:X2` succeeds (clones
are registered for both `X1:X2` and `X1`, and the top `X1` line is rewritten
to `SUB_X1`), but the definition of `SUB_X1` exists only in the clone table,
which sub-circuit resolution never consults — so the same-first-segment
sibling path `X1:X4`, untouched by the edit, no longer reads its value: it
changed from `2k` to a ComponentNotFoundError (`Sub-circuit "SUB_X1" not
found`), contradicting "the value before differs from the value after only
at p".  A sibling through a different first segment (`X3:X2`) is preserved,
which is what the amended statement keeps. -/
theorem c1_counterexample :
    editor_set_model_and_value c1x_state "X1:X2:R1".toList "4k".toList
      = .ok c1x_after
    ∧ path_value c1x_state "X1:X4".toList "R1".toList = .ok "2k".toList
    ∧ path_value c1x_after "X1:X4".toList "R1".toList
      = .error .componentNotFound
    ∧ path_value c1x_state "X3:X2".toList "R1".toList = .ok "2k".toList
    ∧ path_value c1x_after "X3:X2".toList "R1".toList = .ok "2k".toList :=
  ⟨by decide, by decide, by decide, by decide, by decide⟩

end NewSpice
